import Mathlib

/-!
# mkbootimg: boot image assembly

A shallow embedding of `tools/mkbootimg.c`.  Byte buffers are lists of natural
numbers, C strings are the lists of their bytes before the terminating NUL, and
every system call the program makes is answered by an explicit environment
(`Env`), so that failing and short writes can be quantified over.  The state
that the program changes (the output target, standard output, standard error)
is threaded through as a `World`.

`bootimg.h` and `mincrypt/sha.h` are not part of the sources at hand: the
constants, the header layout and the digest function they declare are the
fields of `Platform`.
-/

namespace Mkbootimg

/-! ## Data model -/

abbrev Bytes := List Nat

/-- The bytes of an ASCII string literal, without the terminating NUL. -/
def cstr (s : String) : Bytes := s.toList.map Char.toNat

/-- Conversion to `uint32_t` / `unsigned`. -/
def toU32 (n : Nat) : Nat := n % 2 ^ 32

/-- Conversion of a non-negative value to a 32-bit `int` (two's complement). -/
def toInt32 (n : Nat) : Int :=
  if n % 2 ^ 32 < 2 ^ 31 then ((n % 2 ^ 32 : Nat) : Int)
  else ((n % 2 ^ 32 : Nat) : Int) - 2 ^ 32

/-- One call of `write(2)` as the program saw it: the byte count it asked for
and the value the call returned. -/
structure WriteCall where
  count : Nat
  result : Int
deriving DecidableEq, Repr

/-- The observable state: the content of the output target (`none` while it
does not exist), the `write` calls made so far, the files handed to
`load_file` so far, and the two text streams. -/
structure World where
  out : Option Bytes
  writes : List WriteCall
  loads : List Bytes
  stdout : Bytes
  stderr : Bytes
deriving DecidableEq, Repr

/-- What the operating system and the C library answer.
* `files fn` is the content of the file `fn` if `open(fn, O_RDONLY)` succeeds;
* `seek_ok`, `malloc_ok`, `read_ok` tell whether the calls of `load_file` succeed;
* `strtoul` is the C library function;
* `create_ok` tells whether `open` of the output target succeeds;
* `wr k n` answers the `k`-th call of `write`, made for `n` bytes: `none` is an
  error (`-1`), `some m` means that `m` bytes are written (`n` if `m` is larger);
* `past i` is the byte that memory holds `i` bytes behind the end of a buffer,
  for a call that reads more bytes than the buffer holds (a call that runs into
  memory that cannot be read is one that `wr` fails);
* `strerror` is the text of `strerror(errno)`;
* `out0` is the output target before the program starts. -/
structure Env where
  files : Bytes → Option Bytes
  seek_ok : Bytes → Bool
  malloc_ok : Nat → Bool
  read_ok : Bytes → Bool
  strtoul : Bytes → Nat → Nat
  create_ok : Bool
  wr : Nat → Nat → Option Nat
  past : Nat → Nat
  strerror : Bytes
  out0 : Option Bytes

/-! ## System calls -/

/-- The `count` bytes that a call reads at the address of the buffer `buf`: the
bytes of the buffer and, when the buffer holds fewer than `count`, the bytes
that memory holds behind it. -/
def read_bytes (env : Env) (buf : Bytes) (count : Nat) : Bytes :=
  (buf ++ (List.range (count - buf.length)).map env.past).take count

/-- The call `write(fd, buf, count)` on the output target.  The call makes no
check of `count` against the buffer.  The environment decides how many bytes
are accepted; the bytes accepted are appended to the target and the call is
logged. -/
def sys_write (env : Env) (w : World) (buf : Bytes) (count : Nat) : Int × World :=
  match env.wr w.writes.length count with
  | none => (-1, { w with writes := w.writes ++ [⟨count, -1⟩] })
  | some m =>
    (((min m count : Nat) : Int),
      { w with out := w.out.map (fun c => c ++ (read_bytes env buf count).take (min m count)),
               writes := w.writes ++ [⟨count, ((min m count : Nat) : Int)⟩] })

/-! ## `write_padding` -/

/-- The static buffer `padding[131072]`, zero-initialised and never written. -/
def padding : Bytes := List.replicate 131072 0

/-- The function `write_padding(fd, pagesize, itemsize)`, on `unsigned` arguments. -/
def write_padding (env : Env) (w : World) (pagesize itemsize : Nat) : Int × World :=
  let pagemask := toU32 (pagesize + 2 ^ 32 - 1)
  if itemsize &&& pagemask = 0 then (0, w)
  else
    let count := toU32 (pagesize + 2 ^ 32 - (itemsize &&& pagemask))
    let r := sys_write env w padding count
    if r.1 ≠ (count : Int) then (-1, r.2) else (0, r.2)

/-- The page sizes that `main` accepts. -/
def allowedPageSizes : List Nat := [2048, 4096, 8192, 16384, 32768, 65536, 131072]

/-! ## The declarations of `bootimg.h` and `mincrypt/sha.h` -/

/-- The variable `hdr` of type `boot_img_hdr`, with the fields that `main`
reads or writes.  Integer fields are `unsigned`; array fields are byte lists. -/
structure boot_img_hdr where
  magic : Bytes
  kernel_size : Nat
  kernel_addr : Nat
  ramdisk_size : Nat
  ramdisk_addr : Nat
  second_size : Nat
  second_addr : Nat
  tags_addr : Nat
  page_size : Nat
  dt_size : Nat
  unknown : Nat
  id : Bytes
  name : Bytes
  cmdline : Bytes
  extra_cmdline : Bytes
deriving DecidableEq, Repr

/-- What the two missing headers declare: the constants, the sizes of the
header and of its `id` field, the object representation of the header
(`hdr_bytes`, what `write(fd, &hdr, sizeof(hdr))` reads), the object
representation of an `unsigned` (`u32_bytes`), and the digest computed by
`SHA_init` / `SHA_update` / `SHA_final` over the bytes fed to it (`SHA_hash`). -/
structure Platform where
  BOOT_MAGIC : Bytes
  BOOT_MAGIC_SIZE : Nat
  BOOT_NAME_SIZE : Nat
  BOOT_ARGS_SIZE : Nat
  BOOT_EXTRA_ARGS_SIZE : Nat
  SHA_DIGEST_SIZE : Nat
  sizeof_id : Nat
  sizeof_hdr : Nat
  hdr_bytes : boot_img_hdr → Bytes
  u32_bytes : Nat → Bytes
  SHA_hash : Bytes → Bytes

/-- The side conditions on the declarations: the array capacities are positive
(so that the natural-number `BOOT_ARGS_SIZE - 1` is the C expression), the
object representations have the size that `sizeof` reports, and a digest has
`SHA_DIGEST_SIZE` bytes. -/
structure Platform.WF (P : Platform) : Prop where
  name_pos : 0 < P.BOOT_NAME_SIZE
  args_pos : 0 < P.BOOT_ARGS_SIZE
  extra_pos : 0 < P.BOOT_EXTRA_ARGS_SIZE
  hdr_pos : 0 < P.sizeof_hdr
  hdr_size : ∀ h, (P.hdr_bytes h).length = P.sizeof_hdr
  u32_size : ∀ n, (P.u32_bytes n).length = 4
  digest_size : ∀ m, (P.SHA_hash m).length = P.SHA_DIGEST_SIZE

/-- The header after `memset(&hdr, 0, sizeof(hdr))`. -/
def hdr_zero (P : Platform) : boot_img_hdr :=
  { magic := List.replicate P.BOOT_MAGIC_SIZE 0
    kernel_size := 0, kernel_addr := 0, ramdisk_size := 0, ramdisk_addr := 0
    second_size := 0, second_addr := 0, tags_addr := 0, page_size := 0
    dt_size := 0, unknown := 0
    id := List.replicate P.sizeof_id 0
    name := List.replicate P.BOOT_NAME_SIZE 0
    cmdline := List.replicate P.BOOT_ARGS_SIZE 0
    extra_cmdline := List.replicate P.BOOT_EXTRA_ARGS_SIZE 0 }

/-! ## C library routines on byte arrays -/

/-- The call `strlen(s)` on a C string (given by its bytes before the NUL). -/
def strlen (s : Bytes) : Nat := s.length

/-- The call `strcpy(dest, src)`: the bytes of `src` and its terminating NUL
replace the start of `dest`. -/
def strcpy (dest src : Bytes) : Bytes :=
  src ++ [0] ++ dest.drop (src.length + 1)

/-- The call `strncpy(dest, src, n)`: at most `n` bytes of `src`, then NULs up
to `n` bytes in all, replace the start of `dest`. -/
def strncpy (dest src : Bytes) (n : Nat) : Bytes :=
  src.take n ++ List.replicate (n - src.length) 0 ++ dest.drop n

/-- The call `memcpy(dest, src, n)`. -/
def memcpy (dest src : Bytes) (n : Nat) : Bytes :=
  src.take n ++ dest.drop n

/-- The bytes of a C string held in an array: those before the first NUL. -/
def cstring_of (field : Bytes) : Bytes := field.takeWhile (fun b => b ≠ 0)

/-! ## `load_file` -/

/-- The function `load_file(fn, &sz)`: the buffer it returns (`none` for the
null pointer); the size reported through `_sz` is the length of the buffer.
The file size that `lseek` reports passes through the `int sz`; a negative
`sz`, a failing `lseek` back to the start, a null `malloc` and a short `read`
all end at the label `oops`. -/
def load_file (env : Env) (w : World) (fn : Bytes) : Option Bytes × World :=
  let w1 := { w with loads := w.loads ++ [fn] }
  match env.files fn with
  | none => (none, w1)
  | some content =>
    let sz := toInt32 content.length
    if sz < 0 then (none, w1)
    else if !env.seek_ok fn then (none, w1)
    else if !env.malloc_ok sz.toNat then (none, w1)
    else if !env.read_ok fn then (none, w1)
    else (some (content.take sz.toNat), w1)

/-! ## `usage` and `print_id` -/

/-- The text that `usage` prints. -/
def usage_text : Bytes :=
  cstr ("usage: mkbootimg\n" ++
        "       --kernel <filename>\n" ++
        "       [ --ramdisk <filename> ]\n" ++
        "       [ --second <2ndbootloader-filename> ]\n" ++
        "       [ --cmdline <kernel-commandline> ]\n" ++
        "       [ --board <boardname> ]\n" ++
        "       [ --base <address> ]\n" ++
        "       [ --pagesize <pagesize> ]\n" ++
        "       [ --dt <filename> ]\n" ++
        "       [ --ramdisk_offset <address> ]\n" ++
        "       [ --second_offset <address> ]\n" ++
        "       [ --tags_offset <address> ]\n" ++
        "       [ --id ]\n" ++
        "       [ --signature <filename> ]\n" ++
        "       -o|--output <filename>\n")

/-- The function `usage()`: prints the usage text and returns 1. -/
def usage (w : World) : Int × World :=
  (1, { w with stderr := w.stderr ++ usage_text })

/-- The conversion `%02x` of `printf`: lower-case hexadecimal, at least two
digits, padded with the digit zero. -/
def fmt_02x (v : Nat) : Bytes :=
  let ds := (Nat.toDigits 16 v).map Char.toNat
  List.replicate (2 - ds.length) 48 ++ ds

/-- The loop of `print_id`, from index `i` with `n` iterations to go. -/
def print_id_loop (id : Bytes) : Nat → Nat → Bytes → Bytes
  | _, 0, out => out
  | i, n + 1, out => print_id_loop id (i + 1) n (out ++ fmt_02x (id.getD i 0))

/-- The function `print_id(id, id_len)`, as the text it appends to standard output. -/
def print_id (id : Bytes) (id_len : Nat) (stdout : Bytes) : Bytes :=
  let out := stdout ++ cstr "0x"
  let out := print_id_loop id 0 id_len out
  out ++ cstr "\n"

/-- The conversion `%d` of `printf`. -/
def fmt_d (v : Int) : Bytes := (toString v).toList.map Char.toNat

/-! ## `main`: the command line -/

/-- The local variables of `main` that the option loop sets. -/
structure Locals where
  kernel_fn : Option Bytes
  ramdisk_fn : Option Bytes
  second_fn : Option Bytes
  cmdline : Bytes
  bootimg : Option Bytes
  board : Bytes
  dt_fn : Option Bytes
  sig_fn : Option Bytes
  pagesize : Nat
  base : Nat
  kernel_offset : Nat
  ramdisk_offset : Nat
  second_offset : Nat
  tags_offset : Nat
  unknown : Nat
  get_id : Bool
deriving DecidableEq, Repr

/-- The initial values of the local variables. -/
def Locals.init : Locals :=
  { kernel_fn := none, ramdisk_fn := none, second_fn := none, cmdline := []
    bootimg := none, board := [], dt_fn := none, sig_fn := none
    pagesize := 2048
    base := 0x10000000, kernel_offset := 0x00008000, ramdisk_offset := 0x01000000
    second_offset := 0x00f00000, tags_offset := 0x00000100, unknown := 0x03000000
    get_id := false }

/-- The option loop `while(argc > 0)` of `main`, over the arguments that are
left.  An early `return` is an `error` with the exit status. -/
def parse_args (env : Env) : List Bytes → Locals → World → Except (Int × World) Locals
  | [], L, _ => .ok L
  | arg :: rest, L, w =>
    if arg = cstr "--id" then parse_args env rest { L with get_id := true } w
    else
      match rest with
      | [] => .error (usage w)
      | val :: rest2 =>
        if arg = cstr "--output" ∨ arg = cstr "-o" then
          parse_args env rest2 { L with bootimg := some val } w
        else if arg = cstr "--kernel" then
          parse_args env rest2 { L with kernel_fn := some val } w
        else if arg = cstr "--ramdisk" then
          parse_args env rest2 { L with ramdisk_fn := some val } w
        else if arg = cstr "--second" then
          parse_args env rest2 { L with second_fn := some val } w
        else if arg = cstr "--cmdline" then
          parse_args env rest2 { L with cmdline := val } w
        else if arg = cstr "--base" then
          parse_args env rest2 { L with base := toU32 (env.strtoul val 16) } w
        else if arg = cstr "--kernel_offset" then
          parse_args env rest2 { L with kernel_offset := toU32 (env.strtoul val 16) } w
        else if arg = cstr "--ramdisk_offset" then
          parse_args env rest2 { L with ramdisk_offset := toU32 (env.strtoul val 16) } w
        else if arg = cstr "--second_offset" then
          parse_args env rest2 { L with second_offset := toU32 (env.strtoul val 16) } w
        else if arg = cstr "--tags_offset" then
          parse_args env rest2 { L with tags_offset := toU32 (env.strtoul val 16) } w
        else if arg = cstr "--unknown" then
          parse_args env rest2 { L with unknown := toU32 (env.strtoul val 16) } w
        else if arg = cstr "--board" then
          parse_args env rest2 { L with board := val } w
        else if arg = cstr "--pagesize" then
          let pagesize := toU32 (env.strtoul val 10)
          if pagesize ≠ 2048 ∧ pagesize ≠ 4096 ∧ pagesize ≠ 8192 ∧ pagesize ≠ 16384
              ∧ pagesize ≠ 32768 ∧ pagesize ≠ 65536 ∧ pagesize ≠ 131072 then
            .error (-1, { w with stderr := w.stderr ++ cstr "error: unsupported page size "
                                              ++ fmt_d (toInt32 pagesize) ++ cstr "\n" })
          else parse_args env rest2 { L with pagesize := pagesize } w
        else if arg = cstr "--dt" then
          parse_args env rest2 { L with dt_fn := some val } w
        else if arg = cstr "--signature" then
          parse_args env rest2 { L with sig_fn := some val } w
        else .error (usage w)

/-! ## `main`: the header fields set from the command line -/

/-- A message on standard error. -/
def eprint (w : World) (msg : Bytes) : World := { w with stderr := w.stderr ++ msg }

/-- A file name between single quotes and the end of the line, as the error
messages print it. -/
def quoted (fn : Bytes) : Bytes := [39] ++ fn ++ [39, 10]

/-- The statements of `main` from `hdr.page_size = pagesize` to the copy of the
command line: the result is the output path, the kernel path and the header. -/
def main_header (P : Platform) (L : Locals) (w : World) :
    Except (Int × World) (Bytes × Bytes × boot_img_hdr) :=
  let hdr := hdr_zero P
  let hdr := { hdr with page_size := L.pagesize }
  let hdr := { hdr with kernel_addr := toU32 (L.base + L.kernel_offset) }
  let hdr := { hdr with ramdisk_addr := toU32 (L.base + L.ramdisk_offset) }
  let hdr := { hdr with second_addr := toU32 (L.base + L.second_offset) }
  let hdr := { hdr with tags_addr := toU32 (L.base + L.tags_offset) }
  let hdr := { hdr with unknown := L.unknown }
  match L.bootimg with
  | none => .error (usage (eprint w (cstr "error: no output filename specified\n")))
  | some bootimg =>
  match L.kernel_fn with
  | none => .error (usage (eprint w (cstr "error: no kernel image specified\n")))
  | some kernel_fn =>
  if strlen L.board ≥ P.BOOT_NAME_SIZE then
    .error (usage (eprint w (cstr "error: board name too large\n")))
  else
  let hdr := { hdr with name := strcpy hdr.name L.board }
  let hdr := { hdr with magic := memcpy hdr.magic P.BOOT_MAGIC P.BOOT_MAGIC_SIZE }
  let cmdlen := strlen L.cmdline
  if cmdlen > P.BOOT_ARGS_SIZE + P.BOOT_EXTRA_ARGS_SIZE - 2 then
    .error (1, eprint w (cstr "error: kernel commandline too large\n"))
  else
  let hdr := { hdr with cmdline := strncpy hdr.cmdline L.cmdline (P.BOOT_ARGS_SIZE - 1) }
  let hdr := { hdr with cmdline := hdr.cmdline.set (P.BOOT_ARGS_SIZE - 1) 0 }
  let hdr :=
    if cmdlen ≥ P.BOOT_ARGS_SIZE - 1 then
      { hdr with extra_cmdline :=
          strncpy hdr.extra_cmdline (L.cmdline.drop (P.BOOT_ARGS_SIZE - 1)) P.BOOT_EXTRA_ARGS_SIZE }
    else hdr
  .ok (bootimg, kernel_fn, hdr)

/-! ## `main`: loading the payloads -/

/-- The buffers that `main` loads: `none` is the null pointer. -/
structure Payloads where
  kernel_data : Bytes
  ramdisk_data : Option Bytes
  second_data : Option Bytes
  dt_data : Option Bytes
  sig_data : Option Bytes
deriving DecidableEq, Repr

/-- The bytes behind a buffer pointer: none behind the null pointer. -/
def buf (d : Option Bytes) : Bytes := d.getD []

/-- The pattern `if(fn) { data = load_file(fn, &size); if(data == 0) { error } }`
that `main` repeats for each optional payload: `what` is the word that the
error message uses for the payload. -/
def load_optional (env : Env) (w : World) (fn : Option Bytes) (what : Bytes) :
    Except (Int × World) (Option Bytes × World) :=
  match fn with
  | none => .ok (none, w)
  | some fn =>
    match load_file env w fn with
    | (none, w) => .error (1, eprint w (cstr "error: could not load " ++ what ++ [32] ++ quoted fn))
    | (some d, w) => .ok (some d, w)

/-- The statements of `main` that load the kernel, the ramdisk, the second
stage, the device tree and the signature, and record their sizes. -/
def main_load (env : Env) (L : Locals) (kernel_fn : Bytes) (hdr : boot_img_hdr) (w : World) :
    Except (Int × World) (boot_img_hdr × Payloads × World) :=
  match load_file env w kernel_fn with
  | (none, w) => .error (1, eprint w (cstr "error: could not load kernel " ++ quoted kernel_fn))
  | (some kernel_data, w) =>
  let hdr := { hdr with kernel_size := kernel_data.length }
  match load_optional env w L.ramdisk_fn (cstr "ramdisk") with
  | .error e => .error e
  | .ok (ramdisk_data, w) =>
  let hdr :=
    match ramdisk_data with
    | none => { hdr with ramdisk_size := 0 }
    | some d => { hdr with ramdisk_size := d.length }
  match load_optional env w L.second_fn (cstr "secondstage") with
  | .error e => .error e
  | .ok (second_data, w) =>
  let hdr :=
    match second_data with
    | none => hdr
    | some d => { hdr with second_size := d.length }
  match load_optional env w L.dt_fn (cstr "device tree image") with
  | .error e => .error e
  | .ok (dt_data, w) =>
  let hdr :=
    match dt_data with
    | none => hdr
    | some d => { hdr with dt_size := d.length }
  match load_optional env w L.sig_fn (cstr "signature") with
  | .error e => .error e
  | .ok (sig_data, w) =>
  .ok (hdr, { kernel_data := kernel_data, ramdisk_data := ramdisk_data,
              second_data := second_data, dt_data := dt_data, sig_data := sig_data }, w)

/-! ## `main`: the identifier -/

/-- The call `SHA_init(&ctx)`: the context is the sequence of bytes fed so far. -/
def SHA_init : Bytes := []

/-- The call `SHA_update(&ctx, data, len)`. -/
def SHA_update (ctx data : Bytes) (len : Nat) : Bytes := ctx ++ data.take len

/-- The call `SHA_final(&ctx)`. -/
def SHA_final (P : Platform) (ctx : Bytes) : Bytes := P.SHA_hash ctx

/-- The context of `main` when it calls `SHA_final`. -/
def main_sha_ctx (P : Platform) (hdr : boot_img_hdr) (pl : Payloads) : Bytes :=
  let ctx := SHA_init
  let ctx := SHA_update ctx pl.kernel_data hdr.kernel_size
  let ctx := SHA_update ctx (P.u32_bytes hdr.kernel_size) 4
  let ctx := SHA_update ctx (buf pl.ramdisk_data) hdr.ramdisk_size
  let ctx := SHA_update ctx (P.u32_bytes hdr.ramdisk_size) 4
  let ctx := SHA_update ctx (buf pl.second_data) hdr.second_size
  let ctx := SHA_update ctx (P.u32_bytes hdr.second_size) 4
  match pl.dt_data with
  | some dt_data =>
    let ctx := SHA_update ctx dt_data hdr.dt_size
    SHA_update ctx (P.u32_bytes hdr.dt_size) 4
  | none => ctx

/-- The statements of `main` from `SHA_init` to the `memcpy` into `hdr.id`. -/
def main_hash (P : Platform) (hdr : boot_img_hdr) (pl : Payloads) : boot_img_hdr :=
  let sha := SHA_final P (main_sha_ctx P hdr pl)
  let n := if P.SHA_DIGEST_SIZE > P.sizeof_id then P.sizeof_id else P.SHA_DIGEST_SIZE
  { hdr with id := memcpy hdr.id sha n }

/-! ## `main`: emission -/

/-- Where control is after a statement of the emission sequence: `fail` after a
`goto fail`, `next` at the next statement. -/
inductive Flow where
  | fail (w : World)
  | next (w : World)
deriving DecidableEq, Repr

/-- Sequencing: the statements that follow run only when control falls through. -/
def Flow.andThen (f : Flow) (k : World → Flow) : Flow :=
  match f with
  | .next w => k w
  | .fail w => .fail w

/-- The statement `if(write(fd, data, size) != size) goto fail;`. -/
def write_or_fail (env : Env) (w : World) (data : Bytes) (size : Nat) : Flow :=
  let r := sys_write env w data size
  if r.1 ≠ (size : Int) then .fail r.2 else .next r.2

/-- The statement `if(write_padding(fd, pagesize, itemsize)) goto fail;`. -/
def pad_or_fail (env : Env) (w : World) (pagesize itemsize : Nat) : Flow :=
  let r := write_padding env w pagesize itemsize
  if r.1 ≠ 0 then .fail r.2 else .next r.2

/-- The pattern `if(data) { if(write(fd, data, size) != size) goto fail;
if(write_padding(fd, pagesize, size)) goto fail; }` that `main` has for the
second stage and for the device tree. -/
def write_optional (env : Env) (w : World) (pagesize : Nat) (data : Option Bytes)
    (size : Nat) : Flow :=
  match data with
  | some d =>
    (write_or_fail env w d size).andThen fun w =>
    pad_or_fail env w pagesize size
  | none => .next w

/-- The statement `if(sig_data) { if(write(fd, sig_data, 272) != 272) goto fail; }`. -/
def write_signature (env : Env) (w : World) (sig_data : Option Bytes) : Flow :=
  match sig_data with
  | some d => write_or_fail env w d 272
  | none => .next w

/-- The statement `if (get_id) { print_id((uint8_t *) hdr.id, sizeof(hdr.id)); }`. -/
def print_id_if (get_id : Bool) (id : Bytes) (id_len : Nat) (w : World) : World :=
  if get_id then { w with stdout := print_id id id_len w.stdout } else w

/-- The statements of `main` from the first `write` to the last. -/
def main_writes (P : Platform) (env : Env) (L : Locals) (hdr : boot_img_hdr) (pl : Payloads)
    (w : World) : Flow :=
  (write_or_fail env w (P.hdr_bytes hdr) P.sizeof_hdr).andThen fun w =>
  (pad_or_fail env w L.pagesize P.sizeof_hdr).andThen fun w =>
  (write_or_fail env w pl.kernel_data hdr.kernel_size).andThen fun w =>
  (pad_or_fail env w L.pagesize hdr.kernel_size).andThen fun w =>
  (write_or_fail env w (buf pl.ramdisk_data) hdr.ramdisk_size).andThen fun w =>
  (pad_or_fail env w L.pagesize hdr.ramdisk_size).andThen fun w =>
  (write_optional env w L.pagesize pl.second_data hdr.second_size).andThen fun w =>
  (Flow.next (print_id_if L.get_id hdr.id P.sizeof_id w)).andThen fun w =>
  (write_optional env w L.pagesize pl.dt_data hdr.dt_size).andThen fun w =>
  write_signature env w pl.sig_data

/-- The statements of `main` from the `open` of the output target to the end,
the label `fail` included. -/
def main_emit (P : Platform) (env : Env) (L : Locals) (bootimg : Bytes) (hdr : boot_img_hdr)
    (pl : Payloads) (w : World) : Int × World :=
  if !env.create_ok then
    (1, eprint w (cstr "error: could not create " ++ quoted bootimg))
  else
    let w := { w with out := some [] }
    match main_writes P env L hdr pl w with
    | .next w => (0, w)
    | .fail w =>
      let w := { w with out := none }
      (1, eprint w (cstr "error: failed writing " ++ [39] ++ bootimg ++ [39]
                      ++ cstr ": " ++ env.strerror ++ cstr "\n"))

/-! ## `main` -/

/-- The statements of `main` after the option loop and before the `open` of the
output target: the result is the output path, the header as it will be written,
the payloads, and the world after the loads. -/
def main_prepare (P : Platform) (env : Env) (L : Locals) (w : World) :
    Except (Int × World) (Bytes × boot_img_hdr × Payloads × World) :=
  match main_header P L w with
  | .error e => .error e
  | .ok (bootimg, kernel_fn, hdr) =>
    match main_load env L kernel_fn hdr w with
    | .error e => .error e
    | .ok (hdr, pl, w) => .ok (bootimg, main_hash P hdr pl, pl, w)

/-- The statements of `main` after the option loop. -/
def main_body (P : Platform) (env : Env) (L : Locals) (w : World) : Int × World :=
  match main_prepare P env L w with
  | .error e => e
  | .ok (bootimg, hdr, pl, w) => main_emit P env L bootimg hdr pl w

/-- The world in which the program starts. -/
def World.start (env : Env) : World :=
  { out := env.out0, writes := [], loads := [], stdout := [], stderr := [] }

/-- The function `main`: `argv` holds the program name and the arguments.  The
result is the exit status and the world it leaves. -/
def main (P : Platform) (env : Env) (argv : List Bytes) : Int × World :=
  match parse_args env (argv.drop 1) Locals.init (World.start env) with
  | .error e => e
  | .ok L => main_body P env L (World.start env)

/-! ## The layout in the words of the specification -/

/-- The number of zero bytes that bring an item of `len` bytes to the next
multiple of `pageSize`: none if `len` is a multiple already. -/
def padLen (pageSize len : Nat) : Nat :=
  if len % pageSize = 0 then 0 else pageSize - len % pageSize

/-- An item followed by zero bytes up to the next multiple of the page size. -/
def padded (pageSize : Nat) (item : Bytes) : Bytes :=
  item ++ List.replicate (padLen pageSize item.length) 0

/-- A payload that is emitted only if present: its bytes, padded. -/
def paddedIfPresent (pageSize : Nat) (data : Option Bytes) : Bytes :=
  match data with
  | some d => padded pageSize d
  | none => []

/-- The signature segment: exactly the first 272 bytes of the signature if
there is one, not padded. -/
def signatureBytes (sig_data : Option Bytes) : Bytes :=
  match sig_data with
  | some sig => sig.take 272
  | none => []

/-- The page-aligned part of the image: header, kernel, ramdisk and second
stage (no bytes if absent), each padded; the device tree, padded, only if
there is one. -/
def alignedImage (pageSize : Nat) (header : Bytes) (pl : Payloads) : Bytes :=
  padded pageSize header ++ padded pageSize pl.kernel_data
    ++ padded pageSize (buf pl.ramdisk_data) ++ padded pageSize (buf pl.second_data)
    ++ paddedIfPresent pageSize pl.dt_data

/-- The image: the page-aligned part and then the signature segment, only if
there is a signature. -/
def image (pageSize : Nat) (header : Bytes) (pl : Payloads) : Bytes :=
  alignedImage pageSize header pl ++ signatureBytes pl.sig_data

/-- The bytes that the call `write(fd, sig_data, 272)` reads: 272 bytes at the
address of the signature, whatever the size of the signature. -/
def signatureRead (env : Env) (sig_data : Option Bytes) : Bytes :=
  match sig_data with
  | some sig => read_bytes env sig 272
  | none => []

/-- The sizes that the calls of `write` before the one for the signature are
given, in a run with every payload: header, kernel, ramdisk, second stage and
device tree, each with its padding. -/
def alignedCounts (pagesize sizeof_hdr : Nat) (hdr : boot_img_hdr) : List Nat :=
  [sizeof_hdr, padLen pagesize sizeof_hdr,
   hdr.kernel_size, padLen pagesize hdr.kernel_size,
   hdr.ramdisk_size, padLen pagesize hdr.ramdisk_size,
   hdr.second_size, padLen pagesize hdr.second_size,
   hdr.dt_size, padLen pagesize hdr.dt_size]

/-- The lower-case hexadecimal digit of a value below 16. -/
def hexDigit (d : Nat) : Nat := (cstr "0123456789abcdef").getD d 0

/-- The hex encoding of a byte sequence: two hexadecimal digits per byte, the
high digit first, in order from the first byte. -/
def hexEncode (bs : Bytes) : Bytes :=
  bs.flatMap (fun b => [hexDigit (b / 16), hexDigit (b % 16)])

/-- The sequence that the specification has hashed: kernel bytes, kernel size
field, ramdisk bytes, ramdisk size field, second-stage bytes, second size
field and, only if a device tree is present, its bytes and its size field. -/
def hashedSequence (P : Platform) (hdr : boot_img_hdr) (pl : Payloads) : Bytes :=
  pl.kernel_data ++ P.u32_bytes hdr.kernel_size
    ++ buf pl.ramdisk_data ++ P.u32_bytes hdr.ramdisk_size
    ++ buf pl.second_data ++ P.u32_bytes hdr.second_size
    ++ (match pl.dt_data with
        | some dt => dt ++ P.u32_bytes hdr.dt_size
        | none => [])

/-- The length of an item rounded up to the next multiple of the page size. -/
def alignUp (pageSize len : Nat) : Nat := len + padLen pageSize len

/-- The page-aligned length of a payload that is emitted only if present. -/
def alignUpIfPresent (pageSize : Nat) (data : Option Bytes) : Nat :=
  match data with
  | some d => alignUp pageSize d.length
  | none => 0

/-- The world `w1` is the world `w` with `bytes` appended to the output target. -/
def Wrote (w w1 : World) (bytes : Bytes) : Prop :=
  w1.out = w.out.map (fun c => c ++ bytes)

/-- Every call of `write` made so far returned the count it was given. -/
def AllFull (w : World) : Prop :=
  ∀ c ∈ w.writes, c.result = (c.count : Int)

/-- What the option loop guarantees, as a property of its result in the world
`w`: the page size it leaves is an allowed one, and an early return has touched
nothing but standard error. -/
def ParseSpec (w : World) (r : Except (Int × World) Locals) : Prop :=
  match r with
  | .ok L1 => L1.pagesize ∈ allowedPageSizes
  | .error e => e.2.writes = w.writes ∧ e.2.out = w.out ∧ e.2.loads = w.loads
      ∧ e.2.stdout = w.stdout

/-! ## Example inputs -/

/-- An environment in which nothing fails: every file is empty, and every
call of `write` accepts all the bytes it is given. -/
def quietEnv : Env :=
  { files := fun _ => some []
    seek_ok := fun _ => true
    malloc_ok := fun _ => true
    read_ok := fun _ => true
    strtoul := fun _ _ => 0
    create_ok := true
    wr := fun _ n => some n
    past := fun _ => 0
    strerror := []
    out0 := none }

/-- A world in which the output target has just been created. -/
def freshWorld : World :=
  { out := some [], writes := [], loads := [], stdout := [], stderr := [] }

/-- The bytes of a 32-bit value, least significant first. -/
def le32 (n : Nat) : Bytes :=
  [n % 256, n / 256 % 256, n / 65536 % 256, n / 16777216 % 256]

/-- An array of capacity `n`: the bytes given, cut or zero-filled to `n`. -/
def fit (n : Nat) (xs : Bytes) : Bytes := (xs ++ List.replicate n 0).take n

/-- An instance of the missing declarations, with the constants and the field
order of the stock Android `bootimg.h` of the time (magic, sizes and addresses,
page size, device-tree size, `unknown`, a 32-byte `id`, name, command line,
extra command line), a little-endian `unsigned`, and a stand-in for the digest
(20 bytes taken from the reversed message). -/
def examplePlatform : Platform :=
  { BOOT_MAGIC := cstr "ANDROID!"
    BOOT_MAGIC_SIZE := 8
    BOOT_NAME_SIZE := 16
    BOOT_ARGS_SIZE := 512
    BOOT_EXTRA_ARGS_SIZE := 1024
    SHA_DIGEST_SIZE := 20
    sizeof_id := 32
    sizeof_hdr := 1632
    hdr_bytes := fun h =>
      fit 8 h.magic ++ le32 h.kernel_size ++ le32 h.kernel_addr ++ le32 h.ramdisk_size
        ++ le32 h.ramdisk_addr ++ le32 h.second_size ++ le32 h.second_addr
        ++ le32 h.tags_addr ++ le32 h.page_size ++ le32 h.dt_size ++ le32 h.unknown
        ++ fit 32 h.id ++ fit 16 h.name ++ fit 512 h.cmdline ++ fit 1024 h.extra_cmdline
    u32_bytes := le32
    SHA_hash := fun m => fit 20 m.reverse }

/-- The local variables after `--kernel zImage -o boot.img` and the given
command line and board name. -/
def exampleLocals (cmdline board : Bytes) : Locals :=
  { Locals.init with
    kernel_fn := some (cstr "zImage"), bootimg := some (cstr "boot.img")
    cmdline := cmdline, board := board }

/-- A `strtoul` for the examples: the digits of the string in the given base. -/
def exampleStrtoul (s : Bytes) (base : Nat) : Nat :=
  s.foldl (fun acc c => acc * base + (if c < 58 then c - 48 else c - 87)) 0

/-- An environment with a kernel `zImage` of 4096 bytes, a kernel `Image` of 5
bytes, a ramdisk of 3 bytes, an empty device tree, a signature `sig.bin` of 272
bytes and a signature `short.sig` of 100 bytes, in which nothing fails; the
memory behind a buffer holds bytes of value 170. -/
def exampleEnv : Env :=
  { files := fun fn =>
      if fn = cstr "zImage" then some (List.replicate 4096 7)
      else if fn = cstr "Image" then some [1, 2, 3, 4, 5]
      else if fn = cstr "ramdisk.gz" then some [1, 2, 3]
      else if fn = cstr "dt.img" then some []
      else if fn = cstr "sig.bin" then some (List.replicate 272 9)
      else if fn = cstr "short.sig" then some (List.replicate 100 9)
      else none
    seek_ok := fun _ => true
    malloc_ok := fun _ => true
    read_ok := fun _ => true
    strtoul := exampleStrtoul
    create_ok := true
    wr := fun _ n => some n
    past := fun _ => 170
    strerror := cstr "No space left on device"
    out0 := none }

/-- The command line `mkbootimg --kernel zImage -o boot.img`. -/
def kernelOnlyArgv : List Bytes :=
  [cstr "mkbootimg", cstr "--kernel", cstr "zImage", cstr "-o", cstr "boot.img"]

/-- A command line with every payload, the identifier requested and a page
size of 4096. -/
def fullArgv : List Bytes :=
  [cstr "mkbootimg", cstr "--kernel", cstr "Image", cstr "--ramdisk", cstr "ramdisk.gz",
   cstr "--dt", cstr "dt.img", cstr "--signature", cstr "sig.bin", cstr "--pagesize",
   cstr "4096", cstr "--id", cstr "-o", cstr "boot.img"]

/-- The local variables that the option loop leaves for `fullArgv`. -/
def fullLocals : Locals :=
  { Locals.init with
    kernel_fn := some (cstr "Image"), ramdisk_fn := some (cstr "ramdisk.gz")
    dt_fn := some (cstr "dt.img"), sig_fn := some (cstr "sig.bin")
    pagesize := 4096, get_id := true, bootimg := some (cstr "boot.img") }

/-- The environment `exampleEnv` with a target that takes every call of `write`
but one of 272 bytes. -/
def signatureFailEnv : Env :=
  { exampleEnv with wr := fun _ n => if n = 272 then none else some n }

/-- The command line `mkbootimg --kernel Image --signature short.sig -o boot.img`. -/
def shortSignatureArgv : List Bytes :=
  [cstr "mkbootimg", cstr "--kernel", cstr "Image", cstr "--signature", cstr "short.sig",
   cstr "-o", cstr "boot.img"]

/-- The local variables that the option loop leaves for `shortSignatureArgv`. -/
def shortSignatureLocals : Locals :=
  { Locals.init with
    kernel_fn := some (cstr "Image"), sig_fn := some (cstr "short.sig")
    bootimg := some (cstr "boot.img") }

deriving instance DecidableEq for Except

/-! ## Facts about page sizes and padding -/

theorem allowed_cases {p : Nat} (h : p ∈ allowedPageSizes) :
    p = 2048 ∨ p = 4096 ∨ p = 8192 ∨ p = 16384 ∨ p = 32768 ∨ p = 65536 ∨ p = 131072 := by
  simpa [allowedPageSizes] using h

theorem allowed_pos {p : Nat} (h : p ∈ allowedPageSizes) : 0 < p := by
  rcases allowed_cases h with h | h | h | h | h | h | h <;> omega

theorem allowed_le {p : Nat} (h : p ∈ allowedPageSizes) : p ≤ 131072 := by
  rcases allowed_cases h with h | h | h | h | h | h | h <;> omega

theorem and_mask_eq_mod {p : Nat} (h : p ∈ allowedPageSizes) (x : Nat) :
    x &&& (p - 1) = x % p := by
  rcases allowed_cases h with h | h | h | h | h | h | h <;> subst h
  · exact Nat.and_pow_two_sub_one_eq_mod x 11
  · exact Nat.and_pow_two_sub_one_eq_mod x 12
  · exact Nat.and_pow_two_sub_one_eq_mod x 13
  · exact Nat.and_pow_two_sub_one_eq_mod x 14
  · exact Nat.and_pow_two_sub_one_eq_mod x 15
  · exact Nat.and_pow_two_sub_one_eq_mod x 16
  · exact Nat.and_pow_two_sub_one_eq_mod x 17

theorem pagemask_eq {p : Nat} (h : p ∈ allowedPageSizes) : toU32 (p + 2 ^ 32 - 1) = p - 1 := by
  have h1 := allowed_pos h
  have h2 := allowed_le h
  unfold toU32
  omega

theorem pad_count_eq {p : Nat} (h : p ∈ allowedPageSizes) (x : Nat) :
    toU32 (p + 2 ^ 32 - (x % p)) = p - x % p := by
  have h1 := allowed_pos h
  have h2 := allowed_le h
  have h3 := Nat.mod_lt x h1
  unfold toU32
  omega

theorem padLen_lt {p : Nat} (hp : 0 < p) (x : Nat) : padLen p x < p := by
  unfold padLen
  split <;> omega

theorem padLen_dvd {p : Nat} (hp : 0 < p) (x : Nat) : p ∣ x + padLen p x := by
  unfold padLen
  split
  · rename_i h
    simpa using Nat.dvd_of_mod_eq_zero h
  · have h3 := Nat.mod_lt x hp
    have h4 := Nat.div_add_mod x p
    refine ⟨x / p + 1, ?_⟩
    have : x + (p - x % p) = p * (x / p) + p := by omega
    rw [this, Nat.mul_add, Nat.mul_one]

theorem padLen_least {p : Nat} (hp : 0 < p) (x k : Nat) (hk : x ≤ k) (hd : p ∣ k) :
    x + padLen p x ≤ k := by
  obtain ⟨q, rfl⟩ := hd
  unfold padLen
  split
  · omega
  · rename_i h
    have h3 := Nat.mod_lt x hp
    have h4 := Nat.div_add_mod x p
    have hq : x / p < q := by
      by_contra hcon
      have hle : q ≤ x / p := Nat.le_of_not_lt hcon
      have : p * q ≤ p * (x / p) := Nat.mul_le_mul_left p hle
      omega
    have : p * (x / p + 1) ≤ p * q := Nat.mul_le_mul_left p hq
    rw [Nat.mul_add, Nat.mul_one] at this
    omega

theorem padding_length : padding.length = 131072 := by
  unfold padding
  rw [List.length_replicate]

theorem take_padding (n : Nat) (h : n ≤ 131072) : padding.take n = List.replicate n 0 := by
  unfold padding
  rw [List.take_replicate, Nat.min_eq_left h]

/-- The function `write_padding` on an allowed page size and an aligned item. -/
theorem write_padding_aligned {p : Nat} (hp : p ∈ allowedPageSizes) (env : Env) (w : World)
    (x : Nat) (h : x % p = 0) : write_padding env w p x = (0, w) := by
  unfold write_padding
  rw [pagemask_eq hp]
  dsimp only
  rw [and_mask_eq_mod hp, if_pos h]

/-- The function `write_padding` on an allowed page size and an unaligned item:
the mask computes the remainder and the count is the page size less the remainder. -/
theorem write_padding_unaligned {p : Nat} (hp : p ∈ allowedPageSizes) (env : Env) (w : World)
    (x : Nat) (h : x % p ≠ 0) :
    write_padding env w p x =
      (if (sys_write env w padding (p - x % p)).1 ≠ ((p - x % p : Nat) : Int) then -1 else 0,
        (sys_write env w padding (p - x % p)).2) := by
  unfold write_padding
  rw [pagemask_eq hp]
  dsimp only
  rw [and_mask_eq_mod hp, if_neg h, pad_count_eq hp]
  by_cases hr : (sys_write env w padding (p - x % p)).1 = ((p - x % p : Nat) : Int)
  · rw [if_neg (not_not.mpr hr), if_neg (not_not.mpr hr)]
  · rw [if_pos hr, if_pos hr]

/-- The bytes read are as many as the call asks for. -/
theorem length_read_bytes (env : Env) (data : Bytes) (n : Nat) :
    (read_bytes env data n).length = n := by
  unfold read_bytes
  rw [List.length_take, List.length_append, List.length_map, List.length_range]
  omega

/-- A call that asks for no more bytes than the buffer holds reads the first
bytes of the buffer. -/
theorem read_bytes_of_le (env : Env) (data : Bytes) (n : Nat) (h : n ≤ data.length) :
    read_bytes env data n = data.take n := by
  unfold read_bytes
  rw [Nat.sub_eq_zero_of_le h]
  simp

/-- A call that asks for more bytes than the buffer holds reads the buffer and
then the bytes that memory holds behind it. -/
theorem read_bytes_of_ge (env : Env) (data : Bytes) (n : Nat) (h : data.length ≤ n) :
    read_bytes env data n = data ++ (List.range (n - data.length)).map env.past := by
  unfold read_bytes
  apply List.take_of_length_le
  rw [List.length_append, List.length_map, List.length_range]
  omega

/-- A call of `write` that the environment accepts in full. -/
theorem sys_write_full (env : Env) (w : World) (data : Bytes) (n m : Nat)
    (hw : env.wr w.writes.length n = some m) (hm : n ≤ m) :
    sys_write env w data n =
      ((n : Int), { w with out := w.out.map (fun c => c ++ read_bytes env data n),
                           writes := w.writes ++ [⟨n, (n : Int)⟩] }) := by
  unfold sys_write
  have h2 : min m n = n := by omega
  have h3 : (read_bytes env data n).take n = read_bytes env data n :=
    List.take_of_length_le (by rw [length_read_bytes])
  simp only [hw, h2, h3]

/-! ## Claim C3: `write_padding` -/

/-- C3: for every allowed page size and every 32-bit item size, when the
environment accepts the bytes of the call, `write_padding` returns 0 having
written nothing (and not called `write` at all) if the item size is a multiple
of the page size, and otherwise having written exactly
`pagesize - itemsize % pagesize` zero bytes in one call; the mask
`itemsize & (pagesize - 1)` is `itemsize % pagesize`; the item size plus the
bytes written is the least multiple of the page size that is at least the item
size (and at most `2 ^ 32`); the bytes written are fewer than the page size and
no more than the `padding` buffer holds. -/
theorem write_padding_pads_to_page (env : Env) (w : World) (pagesize itemsize m : Nat)
    (hp : pagesize ∈ allowedPageSizes) (hi : itemsize < 2 ^ 32)
    (hw : env.wr w.writes.length (padLen pagesize itemsize) = some m)
    (hm : padLen pagesize itemsize ≤ m) :
    itemsize &&& (pagesize - 1) = itemsize % pagesize
    ∧ (itemsize % pagesize = 0 →
        padLen pagesize itemsize = 0 ∧ write_padding env w pagesize itemsize = (0, w))
    ∧ (itemsize % pagesize ≠ 0 →
        padLen pagesize itemsize = pagesize - itemsize % pagesize
        ∧ write_padding env w pagesize itemsize =
          (0, { w with
            out := w.out.map (fun c => c ++ List.replicate (pagesize - itemsize % pagesize) 0),
            writes := w.writes ++ [⟨pagesize - itemsize % pagesize,
                                    ((pagesize - itemsize % pagesize : Nat) : Int)⟩] }))
    ∧ pagesize ∣ itemsize + padLen pagesize itemsize
    ∧ (∀ k, itemsize ≤ k → pagesize ∣ k → itemsize + padLen pagesize itemsize ≤ k)
    ∧ itemsize + padLen pagesize itemsize ≤ 2 ^ 32
    ∧ padLen pagesize itemsize < pagesize
    ∧ padLen pagesize itemsize ≤ padding.length := by
  have hpos := allowed_pos hp
  have hle := allowed_le hp
  have hlt := padLen_lt hpos itemsize
  refine ⟨and_mask_eq_mod hp itemsize, ?_, ?_, padLen_dvd hpos itemsize,
    padLen_least hpos itemsize, ?_, hlt, ?_⟩
  · intro h
    exact ⟨by simp [padLen, h], write_padding_aligned hp env w itemsize h⟩
  · intro h
    have hpl : padLen pagesize itemsize = pagesize - itemsize % pagesize := by simp [padLen, h]
    refine ⟨hpl, ?_⟩
    rw [hpl] at hw
    rw [write_padding_unaligned hp env w itemsize h,
      sys_write_full env w padding (pagesize - itemsize % pagesize) m hw (by omega),
      read_bytes_of_le env padding _ (by rw [padding_length]; omega),
      take_padding _ (by omega)]
    simp
  · apply padLen_least hpos itemsize (2 ^ 32) (Nat.le_of_lt hi)
    rcases allowed_cases hp with h | h | h | h | h | h | h <;> subst h <;> decide
  · rw [padding_length]
    omega

theorem write_padding_pads_to_page_witness :
    (2048 ∈ allowedPageSizes ∧ 1632 < 2 ^ 32
      ∧ quietEnv.wr freshWorld.writes.length (padLen 2048 1632) = some 416
      ∧ padLen 2048 1632 ≤ 416)
    ∧ write_padding quietEnv freshWorld 2048 1632 =
        (0, { freshWorld with
          out := freshWorld.out.map (fun c => c ++ List.replicate (2048 - 1632 % 2048) 0),
          writes := freshWorld.writes ++ [⟨2048 - 1632 % 2048,
                                           ((2048 - 1632 % 2048 : Nat) : Int)⟩] }) :=
  ⟨⟨by decide, by decide, rfl, by decide⟩,
   ((write_padding_pads_to_page quietEnv freshWorld 2048 1632 416
      (by decide) (by decide) rfl (by decide)).2.2.1 (by decide)).2⟩

/-! ## Claim C9: `print_id` -/

theorem fmt_02x_byte (b : Nat) (hb : b < 256) :
    fmt_02x b = [hexDigit (b / 16), hexDigit (b % 16)] := by
  interval_cases b <;> rfl

theorem print_id_loop_eq (id : Bytes) (hid : ∀ b ∈ id, b < 256) :
    ∀ (n i : Nat) (out : Bytes), i + n ≤ id.length →
      print_id_loop id i n out = out ++ hexEncode ((id.drop i).take n) := by
  intro n
  induction n with
  | zero => intro i out _; simp [print_id_loop, hexEncode]
  | succ n ih =>
    intro i out h
    have hi : i < id.length := by omega
    have hd : id.drop i = id[i] :: id.drop (i + 1) := List.drop_eq_getElem_cons hi
    have hb : id[i] < 256 := hid _ (List.getElem_mem hi)
    have hg : id.getD i 0 = id[i] := by simp [List.getD, List.getElem?_eq_getElem hi]
    rw [print_id_loop, ih (i + 1) _ (by omega), hg, fmt_02x_byte _ hb, hd]
    simp only [hexEncode, List.take_succ_cons, List.flatMap_cons, List.append_assoc,
      List.cons_append, List.nil_append]

/-- C9, as the specification has it, fails: for the one-byte identifier `ab`
(hexadecimal) the text printed is `0xab` and a newline, not `ab` and a newline. -/
theorem print_id_not_bare_hex :
    print_id [171] 1 [] ≠ hexEncode [171] ++ cstr "\n" := by
  decide

/-- C9, amended: for every identifier (an array of bytes), `print_id` appends to
standard output the two characters `0x`, then the hex encoding of the
identifier, two lower-case hexadecimal digits per byte in order from the first
byte, then a newline. -/
theorem print_id_text (id stdout : Bytes) (hid : ∀ b ∈ id, b < 256) :
    print_id id id.length stdout = stdout ++ cstr "0x" ++ hexEncode id ++ cstr "\n" := by
  unfold print_id
  dsimp only
  rw [print_id_loop_eq id hid id.length 0 _ (by omega)]
  simp

theorem print_id_text_witness :
    (∀ b ∈ [171, 1], b < 256)
    ∧ print_id [171, 1] 2 [] = [] ++ cstr "0x" ++ hexEncode [171, 1] ++ cstr "\n" :=
  ⟨by decide, print_id_text [171, 1] [] (by decide)⟩

/-! ## The header fields set from the command line -/

theorem strcpy_zero (n : Nat) (s : Bytes) (h : s.length < n) :
    strcpy (List.replicate n 0) s = s ++ List.replicate (n - s.length) 0 := by
  unfold strcpy
  rw [List.drop_replicate, List.append_assoc]
  have : n - s.length = (n - (s.length + 1)) + 1 := by omega
  rw [this, List.replicate_succ]
  rfl

theorem set_last_zero (xs : Bytes) : (xs ++ [0]).set xs.length 0 = xs ++ [0] := by
  induction xs with
  | nil => rfl
  | cons x xs ih => simp [ih]

/-- The primary field after `strncpy` and the terminating store: the first
`a - 1` bytes of the command line, then NULs up to the capacity `a`. -/
theorem cmdline_field (a : Nat) (c : Bytes) (ha : 0 < a) :
    (strncpy (List.replicate a 0) c (a - 1)).set (a - 1) 0 =
      c.take (a - 1) ++ List.replicate (a - (c.take (a - 1)).length) 0 := by
  unfold strncpy
  rw [List.drop_replicate]
  have h1 : a - (a - 1) = 1 := by omega
  rw [h1]
  have h2 : List.replicate 1 0 = [0] := rfl
  rw [h2]
  have hlen : (c.take (a - 1) ++ List.replicate (a - 1 - c.length) 0).length = a - 1 := by
    simp only [List.length_append, List.length_take, List.length_replicate]
    omega
  have h3 := set_last_zero (c.take (a - 1) ++ List.replicate (a - 1 - c.length) 0)
  rw [hlen] at h3
  rw [h3, List.append_assoc]
  congr 1
  have h4 : a - (c.take (a - 1)).length = (a - 1 - c.length) + 1 := by
    simp only [List.length_take]
    omega
  rw [h4, List.replicate_add, h2]

/-- The extra field after `strncpy`: the rest of the command line, then NULs up
to the capacity `e`. -/
theorem extra_field (e : Nat) (r : Bytes) (h : r.length ≤ e) :
    strncpy (List.replicate e 0) r e = r ++ List.replicate (e - r.length) 0 := by
  unfold strncpy
  rw [List.take_of_length_le h, List.drop_replicate, Nat.sub_self]
  simp

/-- The C string held in an array that is a NUL-free string followed by NULs. -/
theorem cstring_of_zero_padded (s : Bytes) (n : Nat) (hs : ∀ b ∈ s, b ≠ 0) :
    cstring_of (s ++ List.replicate n 0) = s := by
  unfold cstring_of
  rw [List.takeWhile_append_of_pos (by simpa using hs)]
  cases n with
  | zero => simp
  | succ n => simp [List.replicate_succ]

/-- The header that `main_header` returns when the output and the kernel are
named and the board name and the command line fit. -/
theorem main_header_ok (P : Platform) (L : Locals) (w : World) (b k : Bytes)
    (hb : L.bootimg = some b) (hk : L.kernel_fn = some k)
    (hboard : L.board.length < P.BOOT_NAME_SIZE)
    (hcmd : L.cmdline.length ≤ P.BOOT_ARGS_SIZE + P.BOOT_EXTRA_ARGS_SIZE - 2) :
    ∃ hdr, main_header P L w = .ok (b, k, hdr)
      ∧ hdr.name = strcpy (List.replicate P.BOOT_NAME_SIZE 0) L.board
      ∧ hdr.cmdline =
          (strncpy (List.replicate P.BOOT_ARGS_SIZE 0) L.cmdline
            (P.BOOT_ARGS_SIZE - 1)).set (P.BOOT_ARGS_SIZE - 1) 0
      ∧ hdr.extra_cmdline =
          (if P.BOOT_ARGS_SIZE - 1 ≤ L.cmdline.length then
            strncpy (List.replicate P.BOOT_EXTRA_ARGS_SIZE 0)
              (L.cmdline.drop (P.BOOT_ARGS_SIZE - 1)) P.BOOT_EXTRA_ARGS_SIZE
           else List.replicate P.BOOT_EXTRA_ARGS_SIZE 0)
      ∧ hdr.id = List.replicate P.sizeof_id 0
      ∧ hdr.page_size = L.pagesize ∧ hdr.second_size = 0 ∧ hdr.dt_size = 0 := by
  have h1 : ¬ (strlen L.board ≥ P.BOOT_NAME_SIZE) := by unfold strlen; omega
  have h2 : ¬ (strlen L.cmdline > P.BOOT_ARGS_SIZE + P.BOOT_EXTRA_ARGS_SIZE - 2) := by
    unfold strlen; omega
  unfold main_header
  simp only [hb, hk, h1, h2, if_false]
  by_cases h3 : P.BOOT_ARGS_SIZE - 1 ≤ L.cmdline.length
  · have h4 : strlen L.cmdline ≥ P.BOOT_ARGS_SIZE - 1 := h3
    simp only [h4, h3, if_true]
    exact ⟨_, rfl, rfl, rfl, rfl, rfl, rfl, rfl, rfl⟩
  · have h4 : ¬ (strlen L.cmdline ≥ P.BOOT_ARGS_SIZE - 1) := h3
    simp only [h4, h3, if_false]
    exact ⟨_, rfl, rfl, rfl, rfl, rfl, rfl, rfl, rfl⟩

/-- When `main_header` returns a header, the output and the kernel were named
and the board name and the command line fit. -/
theorem main_header_inv (P : Platform) (L : Locals) (w : World) (b k : Bytes)
    (hdr : boot_img_hdr) (h : main_header P L w = .ok (b, k, hdr)) :
    L.bootimg = some b ∧ L.kernel_fn = some k ∧ L.board.length < P.BOOT_NAME_SIZE
      ∧ L.cmdline.length ≤ P.BOOT_ARGS_SIZE + P.BOOT_EXTRA_ARGS_SIZE - 2 := by
  rcases hb : L.bootimg with _ | b1
  · simp only [main_header, hb] at h
    exact absurd h (by simp)
  rcases hk : L.kernel_fn with _ | k1
  · simp only [main_header, hb, hk] at h
    exact absurd h (by simp)
  by_cases h1 : strlen L.board ≥ P.BOOT_NAME_SIZE
  · simp only [main_header, hb, hk, h1, if_true] at h
    exact absurd h (by simp)
  by_cases h2 : strlen L.cmdline > P.BOOT_ARGS_SIZE + P.BOOT_EXTRA_ARGS_SIZE - 2
  · simp only [main_header, hb, hk, h1, h2, if_true, if_false] at h
    exact absurd h (by simp)
  simp only [main_header, hb, hk, h1, h2, if_false, Except.ok.injEq, Prod.mk.injEq] at h
  obtain ⟨rfl, rfl, -⟩ := h
  unfold strlen at h1 h2
  exact ⟨rfl, rfl, by omega, by omega⟩

theorem main_header_board_error (P : Platform) (L : Locals) (w : World) (b k : Bytes)
    (hb : L.bootimg = some b) (hk : L.kernel_fn = some k)
    (hboard : P.BOOT_NAME_SIZE ≤ L.board.length) :
    main_header P L w = .error (usage (eprint w (cstr "error: board name too large\n"))) := by
  have h1 : strlen L.board ≥ P.BOOT_NAME_SIZE := hboard
  unfold main_header
  simp only [hb, hk, h1, if_true]

theorem main_header_cmdline_error (P : Platform) (L : Locals) (w : World) (b k : Bytes)
    (hb : L.bootimg = some b) (hk : L.kernel_fn = some k)
    (hboard : L.board.length < P.BOOT_NAME_SIZE)
    (hcmd : P.BOOT_ARGS_SIZE + P.BOOT_EXTRA_ARGS_SIZE - 2 < L.cmdline.length) :
    main_header P L w = .error (1, eprint w (cstr "error: kernel commandline too large\n")) := by
  have h1 : ¬ (strlen L.board ≥ P.BOOT_NAME_SIZE) := by unfold strlen; omega
  have h2 : strlen L.cmdline > P.BOOT_ARGS_SIZE + P.BOOT_EXTRA_ARGS_SIZE - 2 := hcmd
  unfold main_header
  simp only [hb, hk, h1, h2, if_true, if_false]

theorem drop_pred_eq_last (c : Bytes) (x : Nat) (hx : c.getLast? = some x) :
    c.drop (c.length - 1) = [x] := by
  obtain ⟨ys, rfl⟩ := List.getLast?_eq_some_iff.mp hx
  simp

/-! ## Loading and hashing -/

theorem load_file_world (env : Env) (w : World) (fn : Bytes) :
    (load_file env w fn).2 = { w with loads := w.loads ++ [fn] } := by
  unfold load_file
  dsimp only
  split
  · rfl
  · split
    · rfl
    · split
      · rfl
      · split
        · rfl
        · split <;> rfl

theorem load_optional_ok (env : Env) (w w1 : World) (fn : Option Bytes) (what : Bytes)
    (d : Option Bytes) (h : load_optional env w fn what = .ok (d, w1)) :
    w1.out = w.out ∧ w1.writes = w.writes ∧ w1.stdout = w.stdout ∧ w1.stderr = w.stderr := by
  unfold load_optional at h
  cases fn with
  | none =>
    simp only [Except.ok.injEq, Prod.mk.injEq] at h
    obtain ⟨-, rfl⟩ := h
    exact ⟨rfl, rfl, rfl, rfl⟩
  | some fn =>
    have hw := load_file_world env w fn
    rcases hl : load_file env w fn with ⟨_ | x, w2⟩
    · simp [hl] at h
    · rw [hl] at hw
      simp only [hl, Except.ok.injEq, Prod.mk.injEq] at h
      obtain ⟨-, rfl⟩ := h
      simp only at hw
      subst hw
      exact ⟨rfl, rfl, rfl, rfl⟩

/-- What a successful `main_load` leaves: the size fields hold the lengths of
the buffers, the other fields of the header and the output target are as before. -/
theorem main_load_ok (env : Env) (L : Locals) (k : Bytes) (hdr hdr1 : boot_img_hdr)
    (w w1 : World) (pl : Payloads)
    (h : main_load env L k hdr w = .ok (hdr1, pl, w1)) :
    hdr1.name = hdr.name ∧ hdr1.cmdline = hdr.cmdline
      ∧ hdr1.extra_cmdline = hdr.extra_cmdline ∧ hdr1.id = hdr.id
      ∧ hdr1.page_size = hdr.page_size
      ∧ hdr1.kernel_size = pl.kernel_data.length
      ∧ hdr1.ramdisk_size = (buf pl.ramdisk_data).length
      ∧ (hdr.second_size = 0 → hdr1.second_size = (buf pl.second_data).length)
      ∧ (hdr.dt_size = 0 → hdr1.dt_size = (buf pl.dt_data).length)
      ∧ w1.out = w.out ∧ w1.writes = w.writes ∧ w1.stdout = w.stdout
      ∧ w1.stderr = w.stderr := by
  unfold main_load at h
  have hwk := load_file_world env w k
  rcases hk : load_file env w k with ⟨_ | kd, wk⟩
  · simp [hk] at h
  rw [hk] at hwk
  simp only at hwk
  simp only [hk] at h
  rcases h1 : load_optional env wk L.ramdisk_fn (cstr "ramdisk") with e | ⟨rd, w2⟩
  · simp [h1] at h
  simp only [h1] at h
  rcases h2 : load_optional env w2 L.second_fn (cstr "secondstage") with e | ⟨sd, w3⟩
  · simp [h2] at h
  simp only [h2] at h
  rcases h3 : load_optional env w3 L.dt_fn (cstr "device tree image") with e | ⟨dd, w4⟩
  · simp [h3] at h
  simp only [h3] at h
  rcases h4 : load_optional env w4 L.sig_fn (cstr "signature") with e | ⟨gd, w5⟩
  · simp [h4] at h
  simp only [h4, Except.ok.injEq, Prod.mk.injEq] at h
  obtain ⟨h5, h6, h7⟩ := h
  have e1 := load_optional_ok env wk w2 _ _ _ h1
  have e2 := load_optional_ok env w2 w3 _ _ _ h2
  have e3 := load_optional_ok env w3 w4 _ _ _ h3
  have e4 := load_optional_ok env w4 w5 _ _ _ h4
  subst hwk h5 h6 h7
  refine ⟨?_, ?_, ?_, ?_, ?_, ?_, ?_, ?_, ?_, ?_, ?_, ?_, ?_⟩
  all_goals (cases rd <;> cases sd <;> cases dd <;> simp_all [buf])

/-- What a successful `main_prepare` returns: the header of `main_header` with
the size fields set to the lengths of the buffers and the identifier set from
the digest; the output target and the text streams are as before. -/
theorem main_prepare_ok (P : Platform) (env : Env) (L : Locals) (w w1 : World) (b : Bytes)
    (hdr : boot_img_hdr) (pl : Payloads)
    (h : main_prepare P env L w = .ok (b, hdr, pl, w1)) :
    ∃ k hdr0, main_header P L w = .ok (b, k, hdr0)
      ∧ hdr.name = hdr0.name ∧ hdr.cmdline = hdr0.cmdline
      ∧ hdr.extra_cmdline = hdr0.extra_cmdline
      ∧ hdr.page_size = L.pagesize
      ∧ hdr.kernel_size = pl.kernel_data.length
      ∧ hdr.ramdisk_size = (buf pl.ramdisk_data).length
      ∧ hdr.second_size = (buf pl.second_data).length
      ∧ hdr.dt_size = (buf pl.dt_data).length
      ∧ hdr.id = memcpy (List.replicate P.sizeof_id 0) (SHA_final P (main_sha_ctx P hdr pl))
          (if P.SHA_DIGEST_SIZE > P.sizeof_id then P.sizeof_id else P.SHA_DIGEST_SIZE)
      ∧ w1.out = w.out ∧ w1.writes = w.writes ∧ w1.stdout = w.stdout
      ∧ w1.stderr = w.stderr := by
  unfold main_prepare at h
  rcases hh : main_header P L w with e | ⟨b0, k, hdr0⟩
  · simp [hh] at h
  simp only [hh] at h
  rcases hl : main_load env L k hdr0 w with e | ⟨hdrL, pl0, w2⟩
  · simp [hl] at h
  simp only [hl, Except.ok.injEq, Prod.mk.injEq] at h
  obtain ⟨rfl, rfl, rfl, rfl⟩ := h
  obtain ⟨hb, hk, hboard, hcmd⟩ := main_header_inv P L w _ _ _ hh
  obtain ⟨hdr0b, hh2, -, -, -, hid, hps, hss, hds⟩ := main_header_ok P L w _ _ hb hk hboard hcmd
  rw [hh] at hh2
  simp only [Except.ok.injEq, Prod.mk.injEq, true_and] at hh2
  subst hh2
  obtain ⟨e1, e2, e3, e4, e5, e6, e7, e8, e9, e10, e11, e12, e13⟩ :=
    main_load_ok env L k _ _ w _ _ hl
  refine ⟨k, _, rfl, e1, e2, e3, ?_, e6, e7, e8 hss, e9 hds, ?_, e10, e11, e12, e13⟩
  · show hdrL.page_size = L.pagesize
    rw [e5, hps]
  · show memcpy hdrL.id _ _ = _
    rw [e4, hid]
    rfl

theorem main_body_of_header_error (P : Platform) (env : Env) (L : Locals) (w : World)
    (e : Int × World) (h : main_header P L w = .error e) :
    main_body P env L w = e := by
  unfold main_body main_prepare
  simp only [h]

theorem main_of_parse (P : Platform) (env : Env) (argv : List Bytes) (L : Locals)
    (h : parse_args env (argv.drop 1) Locals.init (World.start env) = .ok L) :
    main P env argv = main_body P env L (World.start env) := by
  unfold main
  simp only [h]

theorem examplePlatform_wf : examplePlatform.WF where
  name_pos := by decide
  args_pos := by decide
  extra_pos := by decide
  hdr_pos := by decide
  hdr_size := by
    intro h
    simp only [examplePlatform, fit, le32, List.length_append, List.length_take,
      List.length_replicate, List.length_cons, List.length_nil]
    omega
  u32_size := by intro n; rfl
  digest_size := by
    intro m
    simp only [examplePlatform, fit, List.length_append, List.length_take,
      List.length_replicate, List.length_reverse]
    omega

/-! ## Claims C6, C7 and C10: board name and command line -/

/-- C6: a command line of exactly `BOOT_ARGS_SIZE - 1` bytes is stored whole in
the `cmdline` field (followed by the terminating NUL) and the `extra_cmdline`
field is all zero; a command line of exactly `BOOT_ARGS_SIZE` bytes leaves its
first `BOOT_ARGS_SIZE - 1` bytes and a terminating NUL in `cmdline`, and its
last byte, followed by zeros only, in `extra_cmdline`.  The header that `main`
goes on to write (that of `main_prepare`) has these very fields. -/
theorem cmdline_split_boundary (P : Platform) (L : Locals) (w : World) (b k : Bytes)
    (hP : P.WF) (hb : L.bootimg = some b) (hk : L.kernel_fn = some k)
    (hboard : L.board.length < P.BOOT_NAME_SIZE) :
    (L.cmdline.length = P.BOOT_ARGS_SIZE - 1 →
      ∃ hdr, main_header P L w = .ok (b, k, hdr)
        ∧ hdr.cmdline = L.cmdline ++ [0]
        ∧ hdr.extra_cmdline = List.replicate P.BOOT_EXTRA_ARGS_SIZE 0
        ∧ ∀ env b2 hdr2 pl w1, main_prepare P env L w = .ok (b2, hdr2, pl, w1) →
            hdr2.cmdline = hdr.cmdline ∧ hdr2.extra_cmdline = hdr.extra_cmdline)
    ∧ (L.cmdline.length = P.BOOT_ARGS_SIZE → 2 ≤ P.BOOT_EXTRA_ARGS_SIZE →
      ∃ hdr last, main_header P L w = .ok (b, k, hdr)
        ∧ hdr.cmdline = L.cmdline.take (P.BOOT_ARGS_SIZE - 1) ++ [0]
        ∧ L.cmdline.getLast? = some last
        ∧ hdr.extra_cmdline = last :: List.replicate (P.BOOT_EXTRA_ARGS_SIZE - 1) 0
        ∧ ∀ env b2 hdr2 pl w1, main_prepare P env L w = .ok (b2, hdr2, pl, w1) →
            hdr2.cmdline = hdr.cmdline ∧ hdr2.extra_cmdline = hdr.extra_cmdline) := by
  have ha := hP.args_pos
  have he := hP.extra_pos
  constructor
  · intro hlen
    obtain ⟨hdr, hh, -, hc, hx, -⟩ := main_header_ok P L w b k hb hk hboard (by omega)
    refine ⟨hdr, hh, ?_, ?_, ?_⟩
    · rw [hc, cmdline_field _ _ ha, List.take_of_length_le (by omega)]
      have : P.BOOT_ARGS_SIZE - L.cmdline.length = 1 := by omega
      rw [this]
      rfl
    · rw [hx, if_pos (by omega), List.drop_of_length_le (by omega), extra_field _ _ (by simp)]
      simp
    · intro env b2 hdr2 pl w1 hprep
      obtain ⟨k2, hdr0, hh0, -, e2, e3, -⟩ := main_prepare_ok P env L w w1 b2 hdr2 pl hprep
      rw [hh] at hh0
      simp only [Except.ok.injEq, Prod.mk.injEq] at hh0
      obtain ⟨-, -, rfl⟩ := hh0
      exact ⟨e2, e3⟩
  · intro hlen hx2
    obtain ⟨hdr, hh, -, hc, hx, -⟩ := main_header_ok P L w b k hb hk hboard (by omega)
    have hne : L.cmdline ≠ [] := by
      intro h0
      rw [h0] at hlen
      simp at hlen
      omega
    have hlast := List.getLast?_eq_getLast L.cmdline hne
    refine ⟨hdr, L.cmdline.getLast hne, hh, ?_, hlast, ?_, ?_⟩
    · rw [hc, cmdline_field _ _ ha]
      have : P.BOOT_ARGS_SIZE - (L.cmdline.take (P.BOOT_ARGS_SIZE - 1)).length = 1 := by
        simp only [List.length_take]
        omega
      rw [this]
      rfl
    · have hd := drop_pred_eq_last L.cmdline _ hlast
      rw [hlen] at hd
      rw [hx, if_pos (by omega), hd, extra_field _ _ (by simp; omega)]
      rfl
    · intro env b2 hdr2 pl w1 hprep
      obtain ⟨k2, hdr0, hh0, -, e2, e3, -⟩ := main_prepare_ok P env L w w1 b2 hdr2 pl hprep
      rw [hh] at hh0
      simp only [Except.ok.injEq, Prod.mk.injEq] at hh0
      obtain ⟨-, -, rfl⟩ := hh0
      exact ⟨e2, e3⟩

theorem cmdline_split_boundary_witness :
    (List.replicate 511 97).length = examplePlatform.BOOT_ARGS_SIZE - 1
    ∧ ∃ hdr, main_header examplePlatform (exampleLocals (List.replicate 511 97) []) freshWorld
          = .ok (cstr "boot.img", cstr "zImage", hdr)
        ∧ hdr.cmdline = List.replicate 511 97 ++ [0]
        ∧ hdr.extra_cmdline = List.replicate 1024 0 :=
  ⟨List.length_replicate _ _,
   let ⟨hdr, h1, h2, h3, _⟩ :=
     (cmdline_split_boundary examplePlatform (exampleLocals (List.replicate 511 97) [])
       freshWorld (cstr "boot.img") (cstr "zImage") examplePlatform_wf rfl rfl
       (by decide)).1 (List.length_replicate _ _)
   ⟨hdr, h1, h2, h3⟩⟩

theorem board_error_ne_cmdline_error :
    cstr "error: kernel commandline too large\n"
      ≠ cstr "error: board name too large\n" ++ usage_text := by
  decide

/-- C7: with the output and the kernel named, `main` stops with the message
`error: board name too large` (and the usage text, exit status 1, nothing
loaded, nothing written, the output target untouched) if and only if the board
name has at least `BOOT_NAME_SIZE` bytes; a shorter name is copied to the start
of the `name` field and followed by NULs up to the capacity, so that a name of
`BOOT_NAME_SIZE - 1` bytes fills the field together with its terminating NUL;
the header that `main` goes on to write has this very field. -/
theorem board_name_bound (P : Platform) (L : Locals) (w : World) (b k : Bytes)
    (hb : L.bootimg = some b) (hk : L.kernel_fn = some k) :
    (main_header P L w = .error (usage (eprint w (cstr "error: board name too large\n")))
        ↔ P.BOOT_NAME_SIZE ≤ L.board.length)
    ∧ (P.BOOT_NAME_SIZE ≤ L.board.length → ∀ env,
        main_body P env L w =
          (1, { w with stderr :=
            w.stderr ++ cstr "error: board name too large\n" ++ usage_text })
        ∧ ∀ argv, parse_args env (argv.drop 1) Locals.init (World.start env) = .ok L →
            main P env argv =
              (1, { (World.start env) with
                stderr := cstr "error: board name too large\n" ++ usage_text }))
    ∧ (L.board.length < P.BOOT_NAME_SIZE →
        L.cmdline.length ≤ P.BOOT_ARGS_SIZE + P.BOOT_EXTRA_ARGS_SIZE - 2 →
        ∃ hdr, main_header P L w = .ok (b, k, hdr)
          ∧ hdr.name = L.board ++ List.replicate (P.BOOT_NAME_SIZE - L.board.length) 0
          ∧ hdr.name.length = P.BOOT_NAME_SIZE
          ∧ (L.board.length = P.BOOT_NAME_SIZE - 1 → hdr.name = L.board ++ [0])
          ∧ ∀ env b2 hdr2 pl w1, main_prepare P env L w = .ok (b2, hdr2, pl, w1) →
              hdr2.name = hdr.name) := by
  refine ⟨⟨?_, main_header_board_error P L w b k hb hk⟩, ?_, ?_⟩
  · intro h
    by_contra hlt
    have hboard : L.board.length < P.BOOT_NAME_SIZE := by omega
    by_cases hcmd : L.cmdline.length ≤ P.BOOT_ARGS_SIZE + P.BOOT_EXTRA_ARGS_SIZE - 2
    · obtain ⟨hdr, hh, -⟩ := main_header_ok P L w b k hb hk hboard hcmd
      rw [hh] at h
      exact absurd h (by simp)
    · rw [main_header_cmdline_error P L w b k hb hk hboard (by omega)] at h
      simp only [usage, eprint, Except.error.injEq, Prod.mk.injEq, World.mk.injEq, true_and,
        List.append_assoc, List.append_cancel_left_eq] at h
      exact board_error_ne_cmdline_error h
  · intro hge env
    refine ⟨?_, fun argv hparse => ?_⟩
    · rw [main_body_of_header_error P env L w _ (main_header_board_error P L w b k hb hk hge)]
      simp [usage, eprint]
    · rw [main_of_parse P env argv L hparse,
        main_body_of_header_error P env L _ _ (main_header_board_error P L _ b k hb hk hge)]
      simp [usage, eprint, World.start]
  · intro hboard hcmd
    obtain ⟨hdr, hh, hn, -⟩ := main_header_ok P L w b k hb hk hboard hcmd
    have hname := strcpy_zero P.BOOT_NAME_SIZE L.board hboard
    refine ⟨hdr, hh, by rw [hn, hname], ?_, ?_, ?_⟩
    · rw [hn, hname, List.length_append, List.length_replicate]
      omega
    · intro hlen
      rw [hn, hname]
      have : P.BOOT_NAME_SIZE - L.board.length = 1 := by omega
      rw [this]
      rfl
    · intro env b2 hdr2 pl w1 hprep
      obtain ⟨k2, hdr0, hh0, e1, -⟩ := main_prepare_ok P env L w w1 b2 hdr2 pl hprep
      rw [hh] at hh0
      simp only [Except.ok.injEq, Prod.mk.injEq] at hh0
      obtain ⟨-, -, rfl⟩ := hh0
      exact e1

theorem board_name_bound_witness :
    (examplePlatform.BOOT_NAME_SIZE ≤ (List.replicate 16 65).length
      ∧ main_body examplePlatform quietEnv (exampleLocals [] (List.replicate 16 65)) freshWorld
          = (1, { freshWorld with stderr :=
              freshWorld.stderr ++ cstr "error: board name too large\n" ++ usage_text }))
    ∧ ((List.replicate 15 65).length < examplePlatform.BOOT_NAME_SIZE
      ∧ ∃ hdr, main_header examplePlatform (exampleLocals [] (List.replicate 15 65)) freshWorld
            = .ok (cstr "boot.img", cstr "zImage", hdr)
          ∧ hdr.name = List.replicate 15 65 ++ [0]) :=
  ⟨⟨by decide,
    ((board_name_bound examplePlatform (exampleLocals [] (List.replicate 16 65)) freshWorld
      (cstr "boot.img") (cstr "zImage") rfl rfl).2.1 (by decide) quietEnv).1⟩,
   ⟨by decide,
    let ⟨hdr, h1, _, _, h4, _⟩ :=
      (board_name_bound examplePlatform (exampleLocals [] (List.replicate 15 65)) freshWorld
        (cstr "boot.img") (cstr "zImage") rfl rfl).2.2 (by decide) (by decide)
    ⟨hdr, h1, h4 (by decide)⟩⟩⟩

/-- C10: with the output and the kernel named and a board name that fits, a
command line without NUL bytes of at most
`BOOT_ARGS_SIZE + BOOT_EXTRA_ARGS_SIZE - 2` bytes is accepted and stored without
loss: the `cmdline` field and the `extra_cmdline` field each contain a NUL, and
the bytes of `cmdline` before its first NUL followed by the bytes of
`extra_cmdline` before its first NUL are the command line (the header that `main`
goes on to write has these very fields); a longer command line makes `main` stop
with the message `error: kernel commandline too large` and exit status 1. -/
theorem cmdline_lossless (P : Platform) (L : Locals) (w : World) (b k : Bytes)
    (hP : P.WF) (hb : L.bootimg = some b) (hk : L.kernel_fn = some k)
    (hboard : L.board.length < P.BOOT_NAME_SIZE) :
    (L.cmdline.length ≤ P.BOOT_ARGS_SIZE + P.BOOT_EXTRA_ARGS_SIZE - 2 →
      (∀ x ∈ L.cmdline, x ≠ 0) →
      ∃ hdr, main_header P L w = .ok (b, k, hdr)
        ∧ 0 ∈ hdr.cmdline ∧ 0 ∈ hdr.extra_cmdline
        ∧ cstring_of hdr.cmdline ++ cstring_of hdr.extra_cmdline = L.cmdline
        ∧ ∀ env b2 hdr2 pl w1, main_prepare P env L w = .ok (b2, hdr2, pl, w1) →
            hdr2.cmdline = hdr.cmdline ∧ hdr2.extra_cmdline = hdr.extra_cmdline)
    ∧ (P.BOOT_ARGS_SIZE + P.BOOT_EXTRA_ARGS_SIZE - 2 < L.cmdline.length →
        main_header P L w =
          .error (1, eprint w (cstr "error: kernel commandline too large\n"))
        ∧ ∀ env, main_body P env L w =
              (1, { w with stderr :=
                w.stderr ++ cstr "error: kernel commandline too large\n" })
            ∧ ∀ argv, parse_args env (argv.drop 1) Locals.init (World.start env) = .ok L →
                main P env argv =
                  (1, { (World.start env) with
                    stderr := cstr "error: kernel commandline too large\n" })) := by
  have ha := hP.args_pos
  have he := hP.extra_pos
  constructor
  · intro hcmd hnz
    obtain ⟨hdr, hh, -, hc, hx, -⟩ := main_header_ok P L w b k hb hk hboard hcmd
    have hc2 := hc.trans (cmdline_field P.BOOT_ARGS_SIZE L.cmdline ha)
    have htl : (L.cmdline.take (P.BOOT_ARGS_SIZE - 1)).length ≤ P.BOOT_ARGS_SIZE - 1 := by
      simp only [List.length_take]
      omega
    have hx2 : hdr.extra_cmdline =
        L.cmdline.drop (P.BOOT_ARGS_SIZE - 1)
          ++ List.replicate (P.BOOT_EXTRA_ARGS_SIZE
              - (L.cmdline.drop (P.BOOT_ARGS_SIZE - 1)).length) 0 := by
      rw [hx]
      by_cases h3 : P.BOOT_ARGS_SIZE - 1 ≤ L.cmdline.length
      · rw [if_pos h3, extra_field _ _ (by simp only [List.length_drop]; omega)]
      · rw [if_neg h3, List.drop_of_length_le (by omega)]
        simp
    have hdl : (L.cmdline.drop (P.BOOT_ARGS_SIZE - 1)).length < P.BOOT_EXTRA_ARGS_SIZE := by
      simp only [List.length_drop]
      omega
    refine ⟨hdr, hh, ?_, ?_, ?_, ?_⟩
    · rw [hc2]
      exact List.mem_append_right _ (List.mem_replicate.mpr ⟨by omega, rfl⟩)
    · rw [hx2]
      exact List.mem_append_right _ (List.mem_replicate.mpr ⟨by omega, rfl⟩)
    · rw [hc2, hx2,
        cstring_of_zero_padded _ _ (fun x hx => hnz x (List.mem_of_mem_take hx)),
        cstring_of_zero_padded _ _ (fun x hx => hnz x (List.mem_of_mem_drop hx)),
        List.take_append_drop]
    · intro env b2 hdr2 pl w1 hprep
      obtain ⟨k2, hdr0, hh0, -, e2, e3, -⟩ := main_prepare_ok P env L w w1 b2 hdr2 pl hprep
      rw [hh] at hh0
      simp only [Except.ok.injEq, Prod.mk.injEq] at hh0
      obtain ⟨-, -, rfl⟩ := hh0
      exact ⟨e2, e3⟩
  · intro hlong
    have herr := main_header_cmdline_error P L w b k hb hk hboard hlong
    refine ⟨herr, fun env => ⟨?_, fun argv hparse => ?_⟩⟩
    · rw [main_body_of_header_error P env L w _ herr]
      rfl
    · rw [main_of_parse P env argv L hparse,
        main_body_of_header_error P env L _ _
          (main_header_cmdline_error P L _ b k hb hk hboard hlong)]
      simp [eprint, World.start]

theorem cmdline_lossless_witness :
    ((List.replicate 1534 97).length
        ≤ examplePlatform.BOOT_ARGS_SIZE + examplePlatform.BOOT_EXTRA_ARGS_SIZE - 2
      ∧ (∀ x ∈ List.replicate 1534 97, x ≠ 0)
      ∧ ∃ hdr, main_header examplePlatform (exampleLocals (List.replicate 1534 97) []) freshWorld
            = .ok (cstr "boot.img", cstr "zImage", hdr)
          ∧ cstring_of hdr.cmdline ++ cstring_of hdr.extra_cmdline = List.replicate 1534 97)
    ∧ (examplePlatform.BOOT_ARGS_SIZE + examplePlatform.BOOT_EXTRA_ARGS_SIZE - 2
          < (List.replicate 1535 97).length
      ∧ main_body examplePlatform quietEnv (exampleLocals (List.replicate 1535 97) []) freshWorld
          = (1, { freshWorld with stderr :=
              freshWorld.stderr ++ cstr "error: kernel commandline too large\n" })) :=
  have hlen1 : (List.replicate 1534 97).length
      ≤ examplePlatform.BOOT_ARGS_SIZE + examplePlatform.BOOT_EXTRA_ARGS_SIZE - 2 := by
    rw [List.length_replicate]; decide
  have hnz : ∀ x ∈ List.replicate 1534 97, x ≠ 0 := by
    intro x hx
    rw [List.eq_of_mem_replicate hx]
    decide
  have hlen2 : examplePlatform.BOOT_ARGS_SIZE + examplePlatform.BOOT_EXTRA_ARGS_SIZE - 2
      < (List.replicate 1535 97).length := by
    rw [List.length_replicate]; decide
  ⟨⟨hlen1, hnz,
    let ⟨hdr, h1, _, _, h4, _⟩ :=
      (cmdline_lossless examplePlatform (exampleLocals (List.replicate 1534 97) []) freshWorld
        (cstr "boot.img") (cstr "zImage") examplePlatform_wf rfl rfl (by decide)).1 hlen1 hnz
    ⟨hdr, h1, h4⟩⟩,
   ⟨hlen2,
    (((cmdline_lossless examplePlatform (exampleLocals (List.replicate 1535 97) []) freshWorld
        (cstr "boot.img") (cstr "zImage") examplePlatform_wf rfl rfl (by decide)).2 hlen2).2
      quietEnv).1⟩⟩

/-! ## Claim C2: the identifier -/

theorem main_sha_ctx_eq (P : Platform) (hP : P.WF) (hdr : boot_img_hdr) (pl : Payloads)
    (h1 : hdr.kernel_size = pl.kernel_data.length)
    (h2 : hdr.ramdisk_size = (buf pl.ramdisk_data).length)
    (h3 : hdr.second_size = (buf pl.second_data).length)
    (h4 : hdr.dt_size = (buf pl.dt_data).length) :
    main_sha_ctx P hdr pl = hashedSequence P hdr pl := by
  have hu : ∀ n, (P.u32_bytes n).take 4 = P.u32_bytes n := fun n =>
    List.take_of_length_le (by rw [hP.u32_size])
  unfold main_sha_ctx hashedSequence SHA_update SHA_init
  cases hd : pl.dt_data with
  | none => simp [h1, h2, h3, hu]
  | some dt =>
    have h5 : hdr.dt_size = dt.length := by rw [h4, hd]; rfl
    simp [h1, h2, h3, h5, hu]

/-- C2: the bytes that `main` feeds to the hash are the kernel, the 4 bytes of
the `kernel_size` field, the ramdisk (nothing if absent), the 4 bytes of the
`ramdisk_size` field, the second stage (nothing if absent), the 4 bytes of the
`second_size` field, and then the device tree and the 4 bytes of the `dt_size`
field if and only if a device tree is present; each size field holds the
length of its payload; the sequence does not depend on the signature; and the
`id` field holds the first `min SHA_DIGEST_SIZE sizeof(hdr.id)` bytes of the
digest of that sequence, followed by zeros up to its size. -/
theorem identifier_is_digest (P : Platform) (env : Env) (L : Locals) (w w1 : World)
    (b : Bytes) (hdr : boot_img_hdr) (pl : Payloads) (hP : P.WF)
    (h : main_prepare P env L w = .ok (b, hdr, pl, w1)) :
    main_sha_ctx P hdr pl = hashedSequence P hdr pl
    ∧ (∀ n, (P.u32_bytes n).length = 4)
    ∧ (hdr.kernel_size = pl.kernel_data.length
        ∧ hdr.ramdisk_size = (buf pl.ramdisk_data).length
        ∧ hdr.second_size = (buf pl.second_data).length
        ∧ hdr.dt_size = (buf pl.dt_data).length)
    ∧ (∀ sig, main_sha_ctx P hdr { pl with sig_data := sig } = main_sha_ctx P hdr pl)
    ∧ hdr.id =
        (P.SHA_hash (hashedSequence P hdr pl)).take (min P.SHA_DIGEST_SIZE P.sizeof_id)
          ++ List.replicate (P.sizeof_id - min P.SHA_DIGEST_SIZE P.sizeof_id) 0
    ∧ hdr.id.length = P.sizeof_id := by
  obtain ⟨k, hdr0, -, -, -, -, -, h1, h2, h3, h4, hid, -⟩ :=
    main_prepare_ok P env L w w1 b hdr pl h
  have hctx := main_sha_ctx_eq P hP hdr pl h1 h2 h3 h4
  have hn : (if P.SHA_DIGEST_SIZE > P.sizeof_id then P.sizeof_id else P.SHA_DIGEST_SIZE)
      = min P.SHA_DIGEST_SIZE P.sizeof_id := by
    split <;> omega
  have hid2 : hdr.id =
      (P.SHA_hash (hashedSequence P hdr pl)).take (min P.SHA_DIGEST_SIZE P.sizeof_id)
        ++ List.replicate (P.sizeof_id - min P.SHA_DIGEST_SIZE P.sizeof_id) 0 := by
    rw [hid, hn, hctx]
    unfold memcpy SHA_final
    rw [List.drop_replicate]
  refine ⟨hctx, hP.u32_size, ⟨h1, h2, h3, h4⟩, fun sig => rfl, hid2, ?_⟩
  rw [hid2, List.length_append, List.length_take, List.length_replicate, hP.digest_size]
  omega

set_option maxRecDepth 8192 in
theorem identifier_is_digest_witness :
    ∃ b hdr pl w1,
      parse_args exampleEnv (fullArgv.drop 1) Locals.init (World.start exampleEnv)
        = .ok fullLocals
      ∧ main_prepare examplePlatform exampleEnv fullLocals (World.start exampleEnv)
        = .ok (b, hdr, pl, w1)
      ∧ pl.kernel_data = [1, 2, 3, 4, 5] ∧ pl.ramdisk_data = some [1, 2, 3]
      ∧ pl.second_data = none ∧ pl.dt_data = some []
      ∧ pl.sig_data = some (List.replicate 272 9)
      ∧ main_sha_ctx examplePlatform hdr pl
          = [1, 2, 3, 4, 5, 5, 0, 0, 0, 1, 2, 3, 3, 0, 0, 0, 0, 0, 0, 0, 0, 0, 0, 0]
      ∧ hdr.id
          = [0, 0, 0, 0, 0, 0, 0, 0, 0, 0, 0, 3, 3, 2, 1, 0, 0, 0, 5, 5,
             0, 0, 0, 0, 0, 0, 0, 0, 0, 0, 0, 0] := by
  have hex : ∃ b hdr pl w1,
      main_prepare examplePlatform exampleEnv fullLocals (World.start exampleEnv)
        = .ok (b, hdr, pl, w1)
      ∧ (pl.kernel_data = [1, 2, 3, 4, 5] ∧ pl.ramdisk_data = some [1, 2, 3]
        ∧ pl.second_data = none ∧ pl.dt_data = some []
        ∧ pl.sig_data = some (List.replicate 272 9))
      ∧ hashedSequence examplePlatform hdr pl
          = [1, 2, 3, 4, 5, 5, 0, 0, 0, 1, 2, 3, 3, 0, 0, 0, 0, 0, 0, 0, 0, 0, 0, 0] :=
    ⟨_, _, _, _, rfl, ⟨rfl, rfl, rfl, rfl, rfl⟩, rfl⟩
  obtain ⟨b, hdr, pl, w1, hprep, ⟨hk, hr, hs, hd, hg⟩, hseq⟩ := hex
  have h := identifier_is_digest examplePlatform exampleEnv fullLocals _ w1 b hdr pl
    examplePlatform_wf hprep
  have hctx := h.1
  have hid := h.2.2.2.2.1
  rw [hseq] at hctx hid
  exact ⟨b, hdr, pl, w1, by decide!, hprep, hk, hr, hs, hd, hg, hctx, hid.trans (by decide)⟩

/-! ## The option loop -/

theorem parse_args_spec (env : Env) :
    ∀ (n : Nat) (args : List Bytes) (L : Locals) (w : World), args.length ≤ n →
      L.pagesize ∈ allowedPageSizes → ParseSpec w (parse_args env args L w) := by
  intro n
  induction n with
  | zero =>
    intro args L w hn hp
    cases args with
    | nil => simpa [parse_args, ParseSpec] using hp
    | cons a r => simp at hn
  | succ n ih =>
    intro args L w hn hp
    cases args with
    | nil => simpa [parse_args, ParseSpec] using hp
    | cons arg rest =>
      simp only [List.length_cons] at hn
      cases rest with
      | nil =>
        rw [parse_args]
        by_cases hid : arg = cstr "--id"
        · rw [if_pos hid]
          exact ih [] _ w (by simp) hp
        · rw [if_neg hid]
          simp [ParseSpec, usage]
      | cons val rest2 =>
        simp only [List.length_cons] at hn
        have hr : (val :: rest2).length ≤ n := by simp only [List.length_cons]; omega
        have hr2 : rest2.length ≤ n := by omega
        rw [parse_args]
        by_cases hid : arg = cstr "--id"
        · rw [if_pos hid]
          exact ih _ _ w hr hp
        rw [if_neg hid]
        dsimp only
        by_cases c0 : arg = cstr "--output" ∨ arg = cstr "-o"
        · rw [if_pos c0]
          exact ih rest2 _ w hr2 hp
        rw [if_neg c0]
        by_cases c1 : arg = cstr "--kernel"
        · rw [if_pos c1]
          exact ih rest2 _ w hr2 hp
        rw [if_neg c1]
        by_cases c2 : arg = cstr "--ramdisk"
        · rw [if_pos c2]
          exact ih rest2 _ w hr2 hp
        rw [if_neg c2]
        by_cases c3 : arg = cstr "--second"
        · rw [if_pos c3]
          exact ih rest2 _ w hr2 hp
        rw [if_neg c3]
        by_cases c4 : arg = cstr "--cmdline"
        · rw [if_pos c4]
          exact ih rest2 _ w hr2 hp
        rw [if_neg c4]
        by_cases c5 : arg = cstr "--base"
        · rw [if_pos c5]
          exact ih rest2 _ w hr2 hp
        rw [if_neg c5]
        by_cases c6 : arg = cstr "--kernel_offset"
        · rw [if_pos c6]
          exact ih rest2 _ w hr2 hp
        rw [if_neg c6]
        by_cases c7 : arg = cstr "--ramdisk_offset"
        · rw [if_pos c7]
          exact ih rest2 _ w hr2 hp
        rw [if_neg c7]
        by_cases c8 : arg = cstr "--second_offset"
        · rw [if_pos c8]
          exact ih rest2 _ w hr2 hp
        rw [if_neg c8]
        by_cases c9 : arg = cstr "--tags_offset"
        · rw [if_pos c9]
          exact ih rest2 _ w hr2 hp
        rw [if_neg c9]
        by_cases c10 : arg = cstr "--unknown"
        · rw [if_pos c10]
          exact ih rest2 _ w hr2 hp
        rw [if_neg c10]
        by_cases c11 : arg = cstr "--board"
        · rw [if_pos c11]
          exact ih rest2 _ w hr2 hp
        rw [if_neg c11]
        by_cases cp : arg = cstr "--pagesize"
        · rw [if_pos cp]
          by_cases hps : toU32 (env.strtoul val 10) ≠ 2048 ∧ toU32 (env.strtoul val 10) ≠ 4096
              ∧ toU32 (env.strtoul val 10) ≠ 8192 ∧ toU32 (env.strtoul val 10) ≠ 16384
              ∧ toU32 (env.strtoul val 10) ≠ 32768 ∧ toU32 (env.strtoul val 10) ≠ 65536
              ∧ toU32 (env.strtoul val 10) ≠ 131072
          · rw [if_pos hps]
            simp [ParseSpec]
          · rw [if_neg hps]
            apply ih rest2 _ w hr2
            show toU32 (env.strtoul val 10) ∈ allowedPageSizes
            simp only [allowedPageSizes, List.mem_cons, List.mem_singleton, List.mem_nil_iff,
              or_false]
            omega
        rw [if_neg cp]
        by_cases d0 : arg = cstr "--dt"
        · rw [if_pos d0]
          exact ih rest2 _ w hr2 hp
        rw [if_neg d0]
        by_cases d1 : arg = cstr "--signature"
        · rw [if_pos d1]
          exact ih rest2 _ w hr2 hp
        rw [if_neg d1]
        simp [ParseSpec, usage]

theorem parse_args_pagesize (env : Env) (args : List Bytes) (L : Locals)
    (h : parse_args env args Locals.init (World.start env) = .ok L) :
    L.pagesize ∈ allowedPageSizes := by
  have := parse_args_spec env args.length args Locals.init (World.start env) (Nat.le_refl _)
    (by decide)
  rw [h] at this
  exact this

theorem parse_args_error (env : Env) (args : List Bytes) (e : Int × World)
    (h : parse_args env args Locals.init (World.start env) = .error e) :
    e.2.writes = [] ∧ e.2.out = env.out0 := by
  have := parse_args_spec env args.length args Locals.init (World.start env) (Nat.le_refl _)
    (by decide)
  rw [h] at this
  exact ⟨this.1, this.2.1⟩

/-! ## The log of the calls of `write` -/

theorem sys_write_log (env : Env) (w : World) (d : Bytes) (n : Nat) :
    (sys_write env w d n).2.writes = w.writes ++ [⟨n, (sys_write env w d n).1⟩] := by
  unfold sys_write
  cases env.wr w.writes.length n <;> rfl

theorem AllFull.append {w w1 : World} {n : Nat} (h : AllFull w)
    (hw : w1.writes = w.writes ++ [⟨n, (n : Int)⟩]) : AllFull w1 := by
  intro c hc
  rw [hw, List.mem_append] at hc
  rcases hc with hc | hc
  · exact h c hc
  · simp only [List.mem_singleton] at hc
    subst hc
    rfl

theorem write_or_fail_full (env : Env) (w w1 : World) (d : Bytes) (n : Nat)
    (hf : AllFull w) (h : write_or_fail env w d n = .next w1) : AllFull w1 := by
  unfold write_or_fail at h
  dsimp only at h
  by_cases hr : (sys_write env w d n).1 = (n : Int)
  · rw [if_neg (not_not.mpr hr)] at h
    simp only [Flow.next.injEq] at h
    subst h
    have hlog := sys_write_log env w d n
    rw [hr] at hlog
    exact hf.append hlog
  · rw [if_pos hr] at h
    exact absurd h (by simp)

theorem write_padding_full (env : Env) (w w1 : World) (p x : Nat)
    (hf : AllFull w) (h : write_padding env w p x = (0, w1)) : AllFull w1 := by
  unfold write_padding at h
  dsimp only at h
  by_cases hc : x &&& toU32 (p + 2 ^ 32 - 1) = 0
  · rw [if_pos hc] at h
    simp only [Prod.mk.injEq, true_and] at h
    subst h
    exact hf
  · rw [if_neg hc] at h
    by_cases hr : (sys_write env w padding
        (toU32 (p + 2 ^ 32 - (x &&& toU32 (p + 2 ^ 32 - 1))))).1
        = ((toU32 (p + 2 ^ 32 - (x &&& toU32 (p + 2 ^ 32 - 1))) : Nat) : Int)
    · rw [if_neg (not_not.mpr hr)] at h
      simp only [Prod.mk.injEq, true_and] at h
      subst h
      have hlog := sys_write_log env w padding
        (toU32 (p + 2 ^ 32 - (x &&& toU32 (p + 2 ^ 32 - 1))))
      rw [hr] at hlog
      exact hf.append hlog
    · rw [if_pos hr] at h
      simp only [Prod.mk.injEq] at h
      exact absurd h.1 (by decide)

theorem pad_or_fail_full (env : Env) (w w1 : World) (p x : Nat)
    (hf : AllFull w) (h : pad_or_fail env w p x = .next w1) : AllFull w1 := by
  unfold pad_or_fail at h
  dsimp only at h
  by_cases hr : (write_padding env w p x).1 = 0
  · rw [if_neg (not_not.mpr hr)] at h
    simp only [Flow.next.injEq] at h
    subst h
    exact write_padding_full env w _ p x hf (Prod.ext hr rfl)
  · rw [if_pos hr] at h
    exact absurd h (by simp)

theorem Flow.andThen_next {f : Flow} {k : World → Flow} {w1 : World}
    (h : f.andThen k = .next w1) : ∃ w0, f = .next w0 ∧ k w0 = .next w1 := by
  cases f with
  | fail w => simp [Flow.andThen] at h
  | next w => exact ⟨w, rfl, h⟩

theorem write_optional_full (env : Env) (w w1 : World) (p : Nat) (d : Option Bytes)
    (size : Nat) (hf : AllFull w) (h : write_optional env w p d size = .next w1) :
    AllFull w1 := by
  unfold write_optional at h
  cases d with
  | none =>
    simp only [Flow.next.injEq] at h
    subst h
    exact hf
  | some x =>
    obtain ⟨w0, h1, h2⟩ := Flow.andThen_next h
    exact pad_or_fail_full env w0 w1 p size (write_or_fail_full env w w0 x size hf h1) h2

theorem write_signature_full (env : Env) (w w1 : World) (sig : Option Bytes)
    (hf : AllFull w) (h : write_signature env w sig = .next w1) : AllFull w1 := by
  unfold write_signature at h
  cases sig with
  | none =>
    simp only [Flow.next.injEq] at h
    subst h
    exact hf
  | some s => exact write_or_fail_full env w w1 s 272 hf h

theorem print_id_if_full (g : Bool) (id : Bytes) (n : Nat) (w : World) (hf : AllFull w) :
    AllFull (print_id_if g id n w) := by
  unfold print_id_if
  cases g
  · exact hf
  · exact hf

/-- When control reaches the end of the emission sequence, every call of
`write` it made returned the count it was given. -/
theorem main_writes_full (P : Platform) (env : Env) (L : Locals) (hdr : boot_img_hdr)
    (pl : Payloads) (w w1 : World) (hf : AllFull w)
    (h : main_writes P env L hdr pl w = .next w1) : AllFull w1 := by
  unfold main_writes at h
  obtain ⟨wa, ha, h⟩ := Flow.andThen_next h
  obtain ⟨wb, hb, h⟩ := Flow.andThen_next h
  obtain ⟨wc, hc, h⟩ := Flow.andThen_next h
  obtain ⟨wd, hd, h⟩ := Flow.andThen_next h
  obtain ⟨we, he, h⟩ := Flow.andThen_next h
  obtain ⟨wf, hf2, h⟩ := Flow.andThen_next h
  obtain ⟨wg, hg, h⟩ := Flow.andThen_next h
  obtain ⟨wh, hh, h⟩ := Flow.andThen_next h
  obtain ⟨wi, hi, h⟩ := Flow.andThen_next h
  have fa := write_or_fail_full env w wa _ _ hf ha
  have fb := pad_or_fail_full env wa wb _ _ fa hb
  have fc := write_or_fail_full env wb wc _ _ fb hc
  have fd := pad_or_fail_full env wc wd _ _ fc hd
  have fe := write_or_fail_full env wd we _ _ fd he
  have ff := pad_or_fail_full env we wf _ _ fe hf2
  have fg := write_optional_full env wf wg _ _ _ ff hg
  have fh : AllFull wh := by
    simp only [Flow.next.injEq] at hh
    subst hh
    exact print_id_if_full _ _ _ wg fg
  have fi := write_optional_full env wh wi _ _ _ fh hi
  exact write_signature_full env wi w1 _ fi h

/-! ## Emission when the writes succeed -/

theorem Wrote.trans {w w1 w2 : World} {a c : Bytes} (h1 : Wrote w w1 a) (h2 : Wrote w1 w2 c) :
    Wrote w w2 (a ++ c) := by
  unfold Wrote at *
  rw [h2, h1]
  cases w.out <;> simp

theorem Wrote.refl (w : World) : Wrote w w [] := by
  unfold Wrote
  cases w.out <;> simp

/-- The statement `if(write(fd, data, size) != size) goto fail;` when the
environment accepts the call in full: the bytes read are appended and control
falls through. -/
theorem write_or_fail_ok (env : Env) (w : World) (d : Bytes) (n : Nat)
    (hwr : ∀ k, env.wr k n = some n) :
    ∃ w1, write_or_fail env w d n = .next w1 ∧ Wrote w w1 (read_bytes env d n) := by
  unfold write_or_fail
  rw [sys_write_full env w d n n (hwr _) (Nat.le_refl _)]
  refine ⟨{ w with out := w.out.map (fun c => c ++ read_bytes env d n),
                   writes := w.writes ++ [⟨n, (n : Int)⟩] }, by simp, ?_⟩
  rfl

/-- The statement `if(write(fd, data, size) != size) goto fail;` when the call
fails: control goes to `fail`, with the failed call in the log. -/
theorem write_or_fail_fails (env : Env) (w : World) (d : Bytes) (n : Nat)
    (hwr : ∀ k, env.wr k n = none) :
    ∃ w1, write_or_fail env w d n = .fail w1 ∧ (⟨n, -1⟩ : WriteCall) ∈ w1.writes := by
  have hs : sys_write env w d n = (-1, { w with writes := w.writes ++ [⟨n, -1⟩] }) := by
    unfold sys_write
    simp only [hwr]
  have hne : (-1 : Int) ≠ (n : Int) := by omega
  unfold write_or_fail
  rw [hs]
  dsimp only
  rw [if_pos hne]
  exact ⟨_, rfl, by simp⟩

theorem pad_or_fail_ok (env : Env) (w : World) (p x : Nat)
    (hwr : ∀ k, env.wr k (padLen p x) = some (padLen p x)) (hp : p ∈ allowedPageSizes) :
    ∃ w1, pad_or_fail env w p x = .next w1 ∧ Wrote w w1 (List.replicate (padLen p x) 0) := by
  have hpos := allowed_pos hp
  have hle := allowed_le hp
  unfold pad_or_fail
  by_cases h : x % p = 0
  · rw [write_padding_aligned hp env w x h]
    refine ⟨w, by simp, ?_⟩
    have : padLen p x = 0 := by simp [padLen, h]
    rw [this]
    exact Wrote.refl w
  · have hpl : padLen p x = p - x % p := by simp [padLen, h]
    rw [hpl] at hwr
    rw [write_padding_unaligned hp env w x h,
      sys_write_full env w padding (p - x % p) (p - x % p) (hwr _) (Nat.le_refl _),
      read_bytes_of_le env padding _ (by rw [padding_length]; omega),
      take_padding _ (by omega), hpl]
    refine ⟨{ w with out := w.out.map (fun c => c ++ List.replicate (p - x % p) 0),
                     writes := w.writes ++ [⟨p - x % p, ((p - x % p : Nat) : Int)⟩] },
      by simp, ?_⟩
    rfl

theorem padded_nil (p : Nat) : padded p [] = [] := by
  simp [padded, padLen]

theorem read_bytes_length (env : Env) (d : Bytes) : read_bytes env d d.length = d := by
  rw [read_bytes_of_le env d d.length (Nat.le_refl _), List.take_length]

theorem write_optional_ok (env : Env) (w : World) (p : Nat) (d : Option Bytes) (size : Nat)
    (hwr : ∀ k, env.wr k size = some size)
    (hpad : ∀ k, env.wr k (padLen p size) = some (padLen p size))
    (hp : p ∈ allowedPageSizes) (hsize : size = (buf d).length) :
    ∃ w1, write_optional env w p d size = .next w1 ∧ Wrote w w1 (padded p (buf d)) := by
  unfold write_optional
  cases d with
  | none =>
    refine ⟨w, rfl, ?_⟩
    show Wrote w w (padded p [])
    rw [padded_nil]
    exact Wrote.refl w
  | some x =>
    have hx : size = x.length := hsize
    subst hx
    obtain ⟨w1, e1, r1⟩ := write_or_fail_ok env w x x.length hwr
    obtain ⟨w2, e2, r2⟩ := pad_or_fail_ok env w1 p x.length hpad hp
    refine ⟨w2, ?_, ?_⟩
    · simp only [e1, Flow.andThen, e2]
    · have := r1.trans r2
      rw [read_bytes_length] at this
      exact this

theorem write_signature_ok (env : Env) (w : World) (sig : Option Bytes)
    (hwr : ∀ k, env.wr k 272 = some 272) :
    ∃ w1, write_signature env w sig = .next w1 ∧ Wrote w w1 (signatureRead env sig) := by
  unfold write_signature
  cases sig with
  | none => exact ⟨w, rfl, Wrote.refl w⟩
  | some s => exact write_or_fail_ok env w s 272 hwr

theorem print_id_if_out (g : Bool) (id : Bytes) (n : Nat) (w : World) :
    Wrote w (print_id_if g id n w) [] := by
  unfold print_id_if
  cases g
  · exact Wrote.refl w
  · unfold Wrote
    cases w.out <;> simp

/-- The emission sequence up to the signature when the calls of `write` for the
header, the payloads and their padding succeed: control reaches the statement
for the signature, and the bytes appended to the output target so far are the
page-aligned part of the image. -/
theorem main_writes_aligned (P : Platform) (env : Env) (L : Locals) (hdr : boot_img_hdr)
    (pl : Payloads) (w : World) (hP : P.WF)
    (hwr : ∀ n ∈ alignedCounts L.pagesize P.sizeof_hdr hdr, ∀ k, env.wr k n = some n)
    (hp : L.pagesize ∈ allowedPageSizes)
    (h1 : hdr.kernel_size = pl.kernel_data.length)
    (h2 : hdr.ramdisk_size = (buf pl.ramdisk_data).length)
    (h3 : hdr.second_size = (buf pl.second_data).length)
    (h4 : hdr.dt_size = (buf pl.dt_data).length) :
    ∃ wi, main_writes P env L hdr pl w = write_signature env wi pl.sig_data
      ∧ Wrote w wi (alignedImage L.pagesize (P.hdr_bytes hdr) pl) := by
  have hh := hP.hdr_size hdr
  have c0 := hwr P.sizeof_hdr (by simp [alignedCounts])
  have c1 := hwr (padLen L.pagesize P.sizeof_hdr) (by simp [alignedCounts])
  have c2 := hwr hdr.kernel_size (by simp [alignedCounts])
  have c3 := hwr (padLen L.pagesize hdr.kernel_size) (by simp [alignedCounts])
  have c4 := hwr hdr.ramdisk_size (by simp [alignedCounts])
  have c5 := hwr (padLen L.pagesize hdr.ramdisk_size) (by simp [alignedCounts])
  have c6 := hwr hdr.second_size (by simp [alignedCounts])
  have c7 := hwr (padLen L.pagesize hdr.second_size) (by simp [alignedCounts])
  have c8 := hwr hdr.dt_size (by simp [alignedCounts])
  have c9 := hwr (padLen L.pagesize hdr.dt_size) (by simp [alignedCounts])
  obtain ⟨wa, ea, ra⟩ := write_or_fail_ok env w (P.hdr_bytes hdr) P.sizeof_hdr c0
  obtain ⟨wb, eb, rb⟩ := pad_or_fail_ok env wa L.pagesize P.sizeof_hdr c1 hp
  obtain ⟨wc, ec, rc⟩ := write_or_fail_ok env wb pl.kernel_data hdr.kernel_size c2
  obtain ⟨wd, ed, rd⟩ := pad_or_fail_ok env wc L.pagesize hdr.kernel_size c3 hp
  obtain ⟨we, ee, re⟩ := write_or_fail_ok env wd (buf pl.ramdisk_data) hdr.ramdisk_size c4
  obtain ⟨wf, ef, rf⟩ := pad_or_fail_ok env we L.pagesize hdr.ramdisk_size c5 hp
  obtain ⟨wg, eg, rg⟩ :=
    write_optional_ok env wf L.pagesize pl.second_data hdr.second_size c6 c7 hp h3
  have rh := print_id_if_out L.get_id hdr.id P.sizeof_id wg
  obtain ⟨wi, ei, ri⟩ :=
    write_optional_ok env (print_id_if L.get_id hdr.id P.sizeof_id wg) L.pagesize
      pl.dt_data hdr.dt_size c8 c9 hp h4
  refine ⟨wi, ?_, ?_⟩
  · unfold main_writes
    simp only [ea, eb, ec, ed, ee, ef, eg, ei, Flow.andThen]
  · have hall := ((((((((ra.trans rb).trans rc).trans rd).trans re).trans rf).trans rg).trans
      rh).trans ri)
    have e1 : read_bytes env (P.hdr_bytes hdr) P.sizeof_hdr = P.hdr_bytes hdr := by
      rw [← hh, read_bytes_length]
    have e2 : read_bytes env pl.kernel_data hdr.kernel_size = pl.kernel_data := by
      rw [h1, read_bytes_length]
    have e3 : read_bytes env (buf pl.ramdisk_data) hdr.ramdisk_size = buf pl.ramdisk_data := by
      rw [h2, read_bytes_length]
    have e4 : padded L.pagesize (buf pl.dt_data) = paddedIfPresent L.pagesize pl.dt_data := by
      cases pl.dt_data with
      | none => exact padded_nil _
      | some dt => rfl
    rw [e1, e2, e3, e4, List.append_nil] at hall
    rw [← hh, h1, h2] at hall
    unfold alignedImage
    simpa [padded, List.append_assoc] using hall

/-- The emission sequence when every call of `write` succeeds: control reaches
the end, and the bytes appended to the output target are the page-aligned part
of the image and then the 272 bytes read at the address of the signature. -/
theorem main_writes_ok (P : Platform) (env : Env) (L : Locals) (hdr : boot_img_hdr)
    (pl : Payloads) (w : World) (hP : P.WF)
    (hwr : ∀ k n, env.wr k n = some n) (hp : L.pagesize ∈ allowedPageSizes)
    (h1 : hdr.kernel_size = pl.kernel_data.length)
    (h2 : hdr.ramdisk_size = (buf pl.ramdisk_data).length)
    (h3 : hdr.second_size = (buf pl.second_data).length)
    (h4 : hdr.dt_size = (buf pl.dt_data).length) :
    ∃ w1, main_writes P env L hdr pl w = .next w1
      ∧ Wrote w w1 (alignedImage L.pagesize (P.hdr_bytes hdr) pl
          ++ signatureRead env pl.sig_data) := by
  obtain ⟨wi, ei, ri⟩ := main_writes_aligned P env L hdr pl w hP (fun n _ k => hwr k n) hp
    h1 h2 h3 h4
  obtain ⟨wj, ej, rj⟩ := write_signature_ok env wi pl.sig_data (fun k => hwr k 272)
  exact ⟨wj, ei.trans ej, ri.trans rj⟩

theorem sys_write_inv (env : Env) (w : World) (d : Bytes) (n : Nat)
    (h : (sys_write env w d n).1 = (n : Int)) :
    Wrote w (sys_write env w d n).2 (read_bytes env d n) := by
  unfold sys_write at h ⊢
  cases hm : env.wr w.writes.length n with
  | none =>
    rw [hm] at h
    simp only at h
    omega
  | some m =>
    rw [hm] at h
    simp only [Nat.cast_inj] at h
    simp only
    unfold Wrote
    rw [h, List.take_of_length_le (by rw [length_read_bytes])]

theorem write_or_fail_next (env : Env) (w w1 : World) (d : Bytes) (n : Nat)
    (h : write_or_fail env w d n = .next w1) : Wrote w w1 (read_bytes env d n) := by
  unfold write_or_fail at h
  dsimp only at h
  by_cases hr : (sys_write env w d n).1 = (n : Int)
  · rw [if_neg (not_not.mpr hr)] at h
    simp only [Flow.next.injEq] at h
    subst h
    exact sys_write_inv env w d n hr
  · rw [if_pos hr] at h
    exact absurd h (by simp)

theorem pad_or_fail_next (env : Env) (w w1 : World) (p x : Nat) (hp : p ∈ allowedPageSizes)
    (h : pad_or_fail env w p x = .next w1) : Wrote w w1 (List.replicate (padLen p x) 0) := by
  have hpos := allowed_pos hp
  have hle := allowed_le hp
  unfold pad_or_fail at h
  by_cases hx : x % p = 0
  · rw [write_padding_aligned hp env w x hx] at h
    simp only [ne_eq, not_true_eq_false, if_false, Flow.next.injEq] at h
    subst h
    have : padLen p x = 0 := by simp [padLen, hx]
    rw [this]
    exact Wrote.refl w
  · have hpl : padLen p x = p - x % p := by simp [padLen, hx]
    rw [write_padding_unaligned hp env w x hx] at h
    dsimp only at h
    by_cases hr : (sys_write env w padding (p - x % p)).1 = ((p - x % p : Nat) : Int)
    · rw [if_neg (not_not.mpr hr)] at h
      simp only [ne_eq, not_true_eq_false, if_false, Flow.next.injEq] at h
      subst h
      have := sys_write_inv env w padding (p - x % p) hr
      rw [read_bytes_of_le env padding _ (by rw [padding_length]; omega),
        take_padding _ (by omega)] at this
      rw [hpl]
      exact this
    · rw [if_pos hr] at h
      have : ((-1 : Int) ≠ 0) := by decide
      rw [if_pos this] at h
      exact absurd h (by simp)

theorem write_optional_next (env : Env) (w w1 : World) (p : Nat) (d : Option Bytes)
    (size : Nat) (hp : p ∈ allowedPageSizes) (hsize : size = (buf d).length)
    (h : write_optional env w p d size = .next w1) : Wrote w w1 (padded p (buf d)) := by
  unfold write_optional at h
  cases d with
  | none =>
    simp only [Flow.next.injEq] at h
    subst h
    show Wrote w w (padded p [])
    rw [padded_nil]
    exact Wrote.refl w
  | some x =>
    have hx : size = x.length := hsize
    subst hx
    obtain ⟨w0, h1, h2⟩ := Flow.andThen_next h
    have r1 := write_or_fail_next env w w0 x x.length h1
    have r2 := pad_or_fail_next env w0 w1 p x.length hp h2
    have := r1.trans r2
    rw [read_bytes_length] at this
    exact this

theorem write_signature_next (env : Env) (w w1 : World) (sig : Option Bytes)
    (h : write_signature env w sig = .next w1) : Wrote w w1 (signatureRead env sig) := by
  unfold write_signature at h
  cases sig with
  | none =>
    simp only [Flow.next.injEq] at h
    subst h
    exact Wrote.refl w
  | some s => exact write_or_fail_next env w w1 s 272 h

/-- When control reaches the end of the emission sequence, the bytes appended to
the output target are the page-aligned part of the image and then the 272 bytes
read at the address of the signature. -/
theorem main_writes_next (P : Platform) (env : Env) (L : Locals) (hdr : boot_img_hdr)
    (pl : Payloads) (w w1 : World) (hP : P.WF) (hp : L.pagesize ∈ allowedPageSizes)
    (h1 : hdr.kernel_size = pl.kernel_data.length)
    (h2 : hdr.ramdisk_size = (buf pl.ramdisk_data).length)
    (h3 : hdr.second_size = (buf pl.second_data).length)
    (h4 : hdr.dt_size = (buf pl.dt_data).length)
    (h : main_writes P env L hdr pl w = .next w1) :
    Wrote w w1 (alignedImage L.pagesize (P.hdr_bytes hdr) pl
      ++ signatureRead env pl.sig_data) := by
  have hh := hP.hdr_size hdr
  unfold main_writes at h
  obtain ⟨wa, ha, h⟩ := Flow.andThen_next h
  obtain ⟨wb, hb, h⟩ := Flow.andThen_next h
  obtain ⟨wc, hc, h⟩ := Flow.andThen_next h
  obtain ⟨wd, hd, h⟩ := Flow.andThen_next h
  obtain ⟨we, he, h⟩ := Flow.andThen_next h
  obtain ⟨wf, hf, h⟩ := Flow.andThen_next h
  obtain ⟨wg, hg, h⟩ := Flow.andThen_next h
  obtain ⟨wh, hi, h⟩ := Flow.andThen_next h
  obtain ⟨wi, hj, h⟩ := Flow.andThen_next h
  have ra := write_or_fail_next env w wa _ _ ha
  have rb := pad_or_fail_next env wa wb _ _ hp hb
  have rc := write_or_fail_next env wb wc _ _ hc
  have rd := pad_or_fail_next env wc wd _ _ hp hd
  have re := write_or_fail_next env wd we _ _ he
  have rf := pad_or_fail_next env we wf _ _ hp hf
  have rg := write_optional_next env wf wg _ _ _ hp h3 hg
  have rh : Wrote wg wh [] := by
    simp only [Flow.next.injEq] at hi
    subst hi
    exact print_id_if_out _ _ _ wg
  have ri := write_optional_next env wh wi _ _ _ hp h4 hj
  have rj := write_signature_next env wi w1 _ h
  have hall := (((((((((ra.trans rb).trans rc).trans rd).trans re).trans rf).trans rg).trans
    rh).trans ri).trans rj)
  have e1 : read_bytes env (P.hdr_bytes hdr) P.sizeof_hdr = P.hdr_bytes hdr := by
    rw [← hh, read_bytes_length]
  have e2 : read_bytes env pl.kernel_data hdr.kernel_size = pl.kernel_data := by
    rw [h1, read_bytes_length]
  have e3 : read_bytes env (buf pl.ramdisk_data) hdr.ramdisk_size = buf pl.ramdisk_data := by
    rw [h2, read_bytes_length]
  have e4 : padded L.pagesize (buf pl.dt_data) = paddedIfPresent L.pagesize pl.dt_data := by
    cases pl.dt_data with
    | none => exact padded_nil _
    | some dt => rfl
  rw [e1, e2, e3, e4, List.append_nil] at hall
  rw [← hh, h1, h2] at hall
  unfold alignedImage
  simpa [padded, List.append_assoc] using hall

/-- A run of `main` that returns 0, after the options have parsed and the header
and the payloads are prepared: the output target opened, every call of `write`
returned the count it was given, and the output target holds the page-aligned
part of the image and then the 272 bytes read at the address of the signature. -/
theorem main_returns_zero (P : Platform) (env : Env) (argv : List Bytes) (L : Locals)
    (b : Bytes) (hdr : boot_img_hdr) (pl : Payloads) (w1 w2 : World) (hP : P.WF)
    (hparse : parse_args env (argv.drop 1) Locals.init (World.start env) = .ok L)
    (hprep : main_prepare P env L (World.start env) = .ok (b, hdr, pl, w1))
    (hrun : main P env argv = (0, w2)) :
    env.create_ok = true ∧ AllFull w2
      ∧ w2.out = some (alignedImage L.pagesize (P.hdr_bytes hdr) pl
          ++ signatureRead env pl.sig_data) := by
  have hp := parse_args_pagesize env _ L hparse
  obtain ⟨k, hdr0, -, -, -, -, -, h1, h2, h3, h4, -, -, hw, -⟩ :=
    main_prepare_ok P env L _ w1 b hdr pl hprep
  have hw0 : w1.writes = [] := hw
  rw [main_of_parse P env argv L hparse] at hrun
  unfold main_body at hrun
  simp only [hprep] at hrun
  unfold main_emit at hrun
  by_cases hcr : env.create_ok = true
  · simp only [hcr, Bool.not_true, Bool.false_eq_true, if_false] at hrun
    rcases hm : main_writes P env L hdr pl { w1 with out := some [] } with wf | wn
    · rw [hm] at hrun
      simp only [Prod.mk.injEq] at hrun
      exact absurd hrun.1 (by decide)
    · rw [hm] at hrun
      simp only [Prod.mk.injEq, true_and] at hrun
      subst hrun
      have hstart : AllFull { w1 with out := some [] } := by
        intro c hc
        simp [hw0] at hc
      have r := main_writes_next P env L hdr pl _ _ hP hp h1 h2 h3 h4 hm
      refine ⟨hcr, main_writes_full P env L hdr pl _ _ hstart hm, ?_⟩
      rw [r]
      simp
  · simp only [hcr, Bool.not_false, if_true, Prod.mk.injEq] at hrun
    exact absurd hrun.1 (by decide)

/-- The run of `main` when the options parse, the header and the payloads are
prepared, the output target opens and every call of `write` succeeds. -/
theorem main_success (P : Platform) (env : Env) (argv : List Bytes) (L : Locals) (b : Bytes)
    (hdr : boot_img_hdr) (pl : Payloads) (w1 : World) (hP : P.WF)
    (hparse : parse_args env (argv.drop 1) Locals.init (World.start env) = .ok L)
    (hprep : main_prepare P env L (World.start env) = .ok (b, hdr, pl, w1))
    (hcreate : env.create_ok = true)
    (hwr : ∀ k n, env.wr k n = some n) :
    ∃ w2, main P env argv = (0, w2)
      ∧ w2.out = some (alignedImage L.pagesize (P.hdr_bytes hdr) pl
          ++ signatureRead env pl.sig_data) := by
  have hp := parse_args_pagesize env _ L hparse
  obtain ⟨k, hdr0, -, -, -, -, -, h1, h2, h3, h4, -⟩ :=
    main_prepare_ok P env L _ w1 b hdr pl hprep
  obtain ⟨w2, e, r⟩ :=
    main_writes_ok P env L hdr pl { w1 with out := some [] } hP hwr hp h1 h2 h3 h4
  refine ⟨w2, ?_, ?_⟩
  · rw [main_of_parse P env argv L hparse]
    unfold main_body
    simp only [hprep]
    unfold main_emit
    simp only [hcreate, Bool.not_true, Bool.false_eq_true, if_false, e]
  · rw [r]
    simp

/-- The run of `main` when everything succeeds up to the call of `write` for the
signature and that call fails: `main` returns 1, the output target is removed,
and the failed call is in the log. -/
theorem main_signature_write_fails (P : Platform) (env : Env) (argv : List Bytes)
    (L : Locals) (b : Bytes) (hdr : boot_img_hdr) (pl : Payloads) (w1 : World) (s : Bytes)
    (hP : P.WF)
    (hparse : parse_args env (argv.drop 1) Locals.init (World.start env) = .ok L)
    (hprep : main_prepare P env L (World.start env) = .ok (b, hdr, pl, w1))
    (hcreate : env.create_ok = true)
    (hwr : ∀ n ∈ alignedCounts L.pagesize P.sizeof_hdr hdr, ∀ k, env.wr k n = some n)
    (hs : pl.sig_data = some s) (hsig : ∀ k, env.wr k 272 = none) :
    ∃ w2, main P env argv = (1, w2) ∧ (⟨272, -1⟩ : WriteCall) ∈ w2.writes := by
  have hp := parse_args_pagesize env _ L hparse
  obtain ⟨k, hdr0, -, -, -, -, -, h1, h2, h3, h4, -⟩ :=
    main_prepare_ok P env L _ w1 b hdr pl hprep
  obtain ⟨wi, ei, -⟩ :=
    main_writes_aligned P env L hdr pl { w1 with out := some [] } hP hwr hp h1 h2 h3 h4
  obtain ⟨wj, ej, hmem⟩ := write_or_fail_fails env wi s 272 hsig
  have e : main_writes P env L hdr pl { w1 with out := some [] } = .fail wj := by
    rw [ei, hs]
    exact ej
  refine ⟨eprint { wj with out := none } (cstr "error: failed writing " ++ [39] ++ b ++ [39]
    ++ cstr ": " ++ env.strerror ++ cstr "\n"), ?_, hmem⟩
  rw [main_of_parse P env argv L hparse]
  unfold main_body
  simp only [hprep]
  unfold main_emit
  simp only [hcreate, Bool.not_true, Bool.false_eq_true, if_false, e]

/-! ## The length of the image -/

theorem length_padded (p : Nat) (x : Bytes) : (padded p x).length = alignUp p x.length := by
  simp [padded, alignUp]

theorem length_paddedIfPresent (p : Nat) (d : Option Bytes) :
    (paddedIfPresent p d).length = alignUpIfPresent p d := by
  cases d with
  | none => rfl
  | some x => exact length_padded p x

theorem length_alignedImage (p : Nat) (header : Bytes) (pl : Payloads) :
    (alignedImage p header pl).length =
      alignUp p header.length + alignUp p pl.kernel_data.length
        + alignUp p (buf pl.ramdisk_data).length + alignUp p (buf pl.second_data).length
        + alignUpIfPresent p pl.dt_data := by
  simp only [alignedImage, List.length_append, length_padded, length_paddedIfPresent]

theorem alignUp_dvd {p : Nat} (hp : 0 < p) (n : Nat) : p ∣ alignUp p n :=
  padLen_dvd hp n

theorem alignUpIfPresent_dvd {p : Nat} (hp : 0 < p) (d : Option Bytes) :
    p ∣ alignUpIfPresent p d := by
  cases d with
  | none => exact Nat.dvd_zero p
  | some x => exact alignUp_dvd hp _

theorem alignedImage_dvd {p : Nat} (hp : 0 < p) (header : Bytes) (pl : Payloads) :
    p ∣ (alignedImage p header pl).length := by
  rw [length_alignedImage]
  exact Nat.dvd_add (Nat.dvd_add (Nat.dvd_add (Nat.dvd_add (alignUp_dvd hp _)
    (alignUp_dvd hp _)) (alignUp_dvd hp _)) (alignUp_dvd hp _)) (alignUpIfPresent_dvd hp _)

/-- The call of `write` for the signature reads 272 bytes, whatever the size of
the signature. -/
theorem length_signatureRead (env : Env) (sig : Option Bytes) (h : sig ≠ none) :
    (signatureRead env sig).length = 272 := by
  cases sig with
  | none => exact absurd rfl h
  | some s => exact length_read_bytes env s 272

/-- The bytes read for a signature of at least 272 bytes are its first 272
bytes. -/
theorem signatureRead_of_full (env : Env) (sig : Option Bytes)
    (h : ∀ s, sig = some s → 272 ≤ s.length) : signatureRead env sig = signatureBytes sig := by
  cases sig with
  | none => rfl
  | some s => exact read_bytes_of_le env s 272 (h s rfl)

/-- The bytes read for a signature of fewer than 272 bytes are the signature and
then what memory holds behind it. -/
theorem signatureRead_of_short (env : Env) (s : Bytes) (h : s.length ≤ 272) :
    signatureRead env (some s) = s ++ (List.range (272 - s.length)).map env.past :=
  read_bytes_of_ge env s 272 h

/-- The layout of the output when there is no signature or the signature holds
at least 272 bytes: every run of `main` that returns 0 leaves exactly the image
in the output target, and such a run is what `main` does whenever the output
target opens and all writes succeed. -/
theorem main_image_of_full_signature (P : Platform) (env : Env) (argv : List Bytes)
    (L : Locals) (b : Bytes) (hdr : boot_img_hdr) (pl : Payloads) (w1 : World) (hP : P.WF)
    (hparse : parse_args env (argv.drop 1) Locals.init (World.start env) = .ok L)
    (hprep : main_prepare P env L (World.start env) = .ok (b, hdr, pl, w1))
    (hsig : ∀ s, pl.sig_data = some s → 272 ≤ s.length) :
    (∀ w2, main P env argv = (0, w2) →
        env.create_ok = true ∧ AllFull w2
        ∧ w2.out = some (image L.pagesize (P.hdr_bytes hdr) pl))
    ∧ (env.create_ok = true → (∀ k n, env.wr k n = some n) →
        ∃ w2, main P env argv = (0, w2)
          ∧ w2.out = some (image L.pagesize (P.hdr_bytes hdr) pl)) := by
  constructor
  · intro w2 hrun
    obtain ⟨hc, hf, ho⟩ := main_returns_zero P env argv L b hdr pl w1 w2 hP hparse hprep hrun
    rw [signatureRead_of_full env _ hsig] at ho
    exact ⟨hc, hf, ho⟩
  · intro hcreate hwr
    obtain ⟨w2, h, ho⟩ := main_success P env argv L b hdr pl w1 hP hparse hprep hcreate hwr
    rw [signatureRead_of_full env _ hsig] at ho
    exact ⟨w2, h, ho⟩

/-! ## Claim C1: the bytes written -/

set_option maxRecDepth 8192 in
/-- C1: the run `mkbootimg --kernel Image --signature short.sig -o boot.img`,
with a kernel of 5 bytes and a signature of 100 bytes, in an environment where
the output target opens and every call of `write` succeeds: `main` passes 272 to
`write` for the signature whatever its size, it returns 0, and the output
target holds the page-aligned part of the image and then the 100 bytes of the
signature followed by 172 bytes from the memory behind the buffer.  That is not
the image of the specification. -/
theorem short_signature_image :
    ∃ b hdr pl w1 w2,
      parse_args exampleEnv (shortSignatureArgv.drop 1) Locals.init (World.start exampleEnv)
          = .ok shortSignatureLocals
      ∧ main_prepare examplePlatform exampleEnv shortSignatureLocals (World.start exampleEnv)
          = .ok (b, hdr, pl, w1)
      ∧ pl.kernel_data = [1, 2, 3, 4, 5]
      ∧ pl.sig_data = some (List.replicate 100 9)
      ∧ main examplePlatform exampleEnv shortSignatureArgv = (0, w2)
      ∧ AllFull w2
      ∧ w2.out = some (alignedImage 2048 (examplePlatform.hdr_bytes hdr) pl
          ++ (List.replicate 100 9 ++ List.replicate 172 170))
      ∧ w2.out ≠ some (image 2048 (examplePlatform.hdr_bytes hdr) pl) := by
  have hparse : parse_args exampleEnv (shortSignatureArgv.drop 1) Locals.init
      (World.start exampleEnv) = .ok shortSignatureLocals := by decide!
  have hex : ∃ b hdr pl w1,
      main_prepare examplePlatform exampleEnv shortSignatureLocals (World.start exampleEnv)
          = .ok (b, hdr, pl, w1)
      ∧ pl.kernel_data = [1, 2, 3, 4, 5]
      ∧ pl.sig_data = some (List.replicate 100 9) :=
    ⟨_, _, _, _, rfl, rfl, rfl⟩
  obtain ⟨b, hdr, pl, w1, hprep, hk, hs⟩ := hex
  obtain ⟨w2, hrun, hout⟩ := main_success examplePlatform exampleEnv shortSignatureArgv
    shortSignatureLocals b hdr pl w1 examplePlatform_wf hparse hprep rfl (fun _ _ => rfl)
  have hfull := (main_returns_zero examplePlatform exampleEnv shortSignatureArgv
    shortSignatureLocals b hdr pl w1 w2 examplePlatform_wf hparse hprep hrun).2.1
  have hread : signatureRead exampleEnv pl.sig_data
      = List.replicate 100 9 ++ List.replicate 172 170 := by
    have hmap : (List.range (272 - 100)).map exampleEnv.past = List.replicate 172 170 := by
      show (List.range 172).map (fun _ => 170) = List.replicate 172 170
      rw [List.map_const', List.length_range]
    rw [hs, signatureRead_of_short exampleEnv _ (by rw [List.length_replicate]; decide),
      List.length_replicate, hmap]
  have hpage : shortSignatureLocals.pagesize = 2048 := rfl
  rw [hread, hpage] at hout
  refine ⟨b, hdr, pl, w1, w2, hparse, hprep, hk, hs, hrun, hfull, hout, ?_⟩
  intro h
  rw [hout] at h
  unfold image at h
  simp only [Option.some.injEq, List.append_cancel_left_eq] at h
  rw [hs] at h
  have hlen := congrArg List.length h
  simp only [signatureBytes, List.length_take, List.length_replicate, List.length_append]
    at hlen
  omega

theorem load_file_ok (env : Env) (w : World) (fn c : Bytes) (hf : env.files fn = some c)
    (hlen : c.length < 2 ^ 31) (hs : env.seek_ok fn = true)
    (hm : env.malloc_ok c.length = true) (hr : env.read_ok fn = true) :
    load_file env w fn = (some c, { w with loads := w.loads ++ [fn] }) := by
  have h1 : toInt32 c.length = (c.length : Int) := by
    unfold toInt32
    have : c.length % 2 ^ 32 = c.length := Nat.mod_eq_of_lt (by omega)
    rw [this, if_pos hlen]
  have h2 : ¬ ((c.length : Int) < 0) := by omega
  unfold load_file
  simp only [hf, h1, h2, if_false, hs, Int.toNat_ofNat, hm, hr, Bool.not_true,
    Bool.false_eq_true, List.take_length]

/-- The header and the payloads that `main` prepares when only a kernel is named. -/
theorem main_prepare_kernel_only (P : Platform) (env : Env) (L : Locals) (w w1 : World)
    (b k kd : Bytes) (hdr0 : boot_img_hdr)
    (hh : main_header P L w = .ok (b, k, hdr0))
    (hl : load_file env w k = (some kd, w1))
    (hr : L.ramdisk_fn = none) (hs : L.second_fn = none) (hd : L.dt_fn = none)
    (hg : L.sig_fn = none) :
    main_prepare P env L w =
      .ok (b,
        main_hash P { hdr0 with kernel_size := kd.length, ramdisk_size := 0 }
          { kernel_data := kd, ramdisk_data := none, second_data := none, dt_data := none,
            sig_data := none },
        { kernel_data := kd, ramdisk_data := none, second_data := none, dt_data := none,
          sig_data := none }, w1) := by
  unfold main_prepare
  simp only [hh]
  unfold main_load
  simp only [hl, hr, hs, hd, hg, load_optional]


/-! ## Claim C4: the length of the output -/

/-- C4: for every command line that the option loop accepts (so that the page
size is an allowed one) and every header and set of payloads that `main`
prepares from it, in every run in which `main` returns 0 the length of the
output is a multiple of the page size when there is no signature, and the sum
of the page-aligned lengths of the header, the kernel, the ramdisk, the second
stage and (if present) the device tree, plus 272, when there is one, whatever
the size of the signature; with a page size of 2048, a header of at most 2048
bytes, a kernel of 4096 bytes and no other payload the output has 6144 bytes.
Such a run is what `main` does whenever the output target opens and all writes
succeed. -/
theorem image_length (P : Platform) (env : Env) (argv : List Bytes) (L : Locals)
    (b : Bytes) (hdr : boot_img_hdr) (pl : Payloads) (w1 : World) (hP : P.WF)
    (hparse : parse_args env (argv.drop 1) Locals.init (World.start env) = .ok L)
    (hprep : main_prepare P env L (World.start env) = .ok (b, hdr, pl, w1)) :
    L.pagesize ∈ allowedPageSizes
    ∧ (∀ w2, main P env argv = (0, w2) →
      ∃ out, w2.out = some out
        ∧ (pl.sig_data = none → L.pagesize ∣ out.length)
        ∧ (pl.sig_data ≠ none →
            out.length =
              alignUp L.pagesize P.sizeof_hdr + alignUp L.pagesize pl.kernel_data.length
                + alignUp L.pagesize (buf pl.ramdisk_data).length
                + alignUp L.pagesize (buf pl.second_data).length
                + alignUpIfPresent L.pagesize pl.dt_data + 272)
        ∧ (L.pagesize = 2048 → P.sizeof_hdr ≤ 2048 → pl.kernel_data.length = 4096 →
            pl.ramdisk_data = none → pl.second_data = none → pl.dt_data = none →
            pl.sig_data = none → out.length = 6144))
    ∧ (env.create_ok = true → (∀ k n, env.wr k n = some n) →
        ∃ w2, main P env argv = (0, w2)) := by
  refine ⟨parse_args_pagesize env _ L hparse, ?_, ?_⟩
  · intro w2 hrun
    obtain ⟨-, -, ho⟩ :=
      main_returns_zero P env argv L b hdr pl w1 w2 hP hparse hprep hrun
    have hpos := allowed_pos (parse_args_pagesize env _ L hparse)
    have hlen := length_alignedImage L.pagesize (P.hdr_bytes hdr) pl
    rw [hP.hdr_size hdr] at hlen
    refine ⟨_, ho, ?_, ?_, ?_⟩
    · intro hnone
      rw [hnone]
      simp only [signatureRead, List.append_nil]
      exact alignedImage_dvd hpos _ _
    · intro hsome
      rw [List.length_append, hlen, length_signatureRead env _ hsome]
    · intro h1 h2 h3 h4 h5 h6 h7
      have hhp := hP.hdr_pos
      have a1 : alignUp 2048 P.sizeof_hdr = 2048 := by
        unfold alignUp padLen
        split <;> omega
      have a2 : alignUp 2048 4096 = 4096 := by decide
      have a3 : alignUp 2048 0 = 0 := by decide
      rw [List.length_append, hlen, h1, h3, h4, h5, h6, h7]
      simp only [signatureRead, alignUpIfPresent, buf, Option.getD_none, List.length_nil, a1,
        a2, a3]
  · intro hcreate hwr
    obtain ⟨w2, h, -⟩ := main_success P env argv L b hdr pl w1 hP hparse hprep hcreate hwr
    exact ⟨w2, h⟩

set_option maxRecDepth 8192 in
theorem image_length_witness :
    (parse_args exampleEnv (kernelOnlyArgv.drop 1) Locals.init (World.start exampleEnv)
        = .ok (exampleLocals [] [])
      ∧ ∃ w2 out, main examplePlatform exampleEnv kernelOnlyArgv = (0, w2)
          ∧ w2.out = some out ∧ out.length = 6144)
    ∧ (parse_args exampleEnv (shortSignatureArgv.drop 1) Locals.init (World.start exampleEnv)
        = .ok shortSignatureLocals
      ∧ ∃ w2 out, main examplePlatform exampleEnv shortSignatureArgv = (0, w2)
          ∧ w2.out = some out ∧ out.length = 4368) := by
  constructor
  · have hparse : parse_args exampleEnv (kernelOnlyArgv.drop 1) Locals.init
        (World.start exampleEnv) = .ok (exampleLocals [] []) := rfl
    obtain ⟨hdr0, hh, -⟩ :=
      main_header_ok examplePlatform (exampleLocals [] []) (World.start exampleEnv)
        (cstr "boot.img") (cstr "zImage") rfl rfl (by decide) (by decide)
    have hl := load_file_ok exampleEnv (World.start exampleEnv) (cstr "zImage")
      (List.replicate 4096 7) rfl (by rw [List.length_replicate]; decide) rfl rfl rfl
    have hprep := main_prepare_kernel_only examplePlatform exampleEnv (exampleLocals [] [])
      _ _ _ _ _ hdr0 hh hl rfl rfl rfl rfl
    have h := image_length examplePlatform exampleEnv kernelOnlyArgv _ _ _ _ _
      examplePlatform_wf hparse hprep
    obtain ⟨w2, hrun⟩ := h.2.2 rfl (fun _ _ => rfl)
    obtain ⟨out, h2, -, -, h5⟩ := h.2.1 w2 hrun
    exact ⟨hparse, w2, out, hrun, h2,
      h5 rfl (by decide) (List.length_replicate _ _) rfl rfl rfl rfl⟩
  · have hparse : parse_args exampleEnv (shortSignatureArgv.drop 1) Locals.init
        (World.start exampleEnv) = .ok shortSignatureLocals := by decide!
    have hex : ∃ b hdr pl w1,
        main_prepare examplePlatform exampleEnv shortSignatureLocals (World.start exampleEnv)
            = .ok (b, hdr, pl, w1)
        ∧ pl.sig_data = some (List.replicate 100 9)
        ∧ alignUp shortSignatureLocals.pagesize examplePlatform.sizeof_hdr
            + alignUp shortSignatureLocals.pagesize pl.kernel_data.length
            + alignUp shortSignatureLocals.pagesize (buf pl.ramdisk_data).length
            + alignUp shortSignatureLocals.pagesize (buf pl.second_data).length
            + alignUpIfPresent shortSignatureLocals.pagesize pl.dt_data + 272 = 4368 :=
      ⟨_, _, _, _, rfl, rfl, by decide⟩
    obtain ⟨b, hdr, pl, w1, hprep, hs, hsum⟩ := hex
    have h := image_length examplePlatform exampleEnv shortSignatureArgv _ b hdr pl w1
      examplePlatform_wf hparse hprep
    obtain ⟨w2, hrun⟩ := h.2.2 rfl (fun _ _ => rfl)
    obtain ⟨out, h2, -, h4, -⟩ := h.2.1 w2 hrun
    exact ⟨hparse, w2, out, hrun, h2, (h4 (by rw [hs]; simp)).trans hsum⟩

/-! ## Claim C5: failing writes -/

theorem load_file_fst_world (env : Env) (w : World) (fn : Bytes) :
    load_file env w fn = ((load_file env w fn).1, { w with loads := w.loads ++ [fn] }) := by
  rw [← load_file_world env w fn]

theorem load_optional_error (env : Env) (w : World) (fn : Option Bytes) (what : Bytes)
    (e : Int × World) (h : load_optional env w fn what = .error e) :
    e.2.writes = w.writes ∧ e.2.out = w.out := by
  unfold load_optional at h
  cases fn with
  | none => simp at h
  | some fn =>
    have hw := load_file_world env w fn
    rcases hl : load_file env w fn with ⟨_ | x, w2⟩
    · rw [hl] at hw
      simp only [hl, Except.error.injEq] at h
      subst h
      simp only at hw
      subst hw
      exact ⟨rfl, rfl⟩
    · simp [hl] at h

theorem main_load_error (env : Env) (L : Locals) (k : Bytes) (hdr : boot_img_hdr)
    (w : World) (e : Int × World) (h : main_load env L k hdr w = .error e) :
    e.2.writes = w.writes ∧ e.2.out = w.out := by
  unfold main_load at h
  have hwk := load_file_world env w k
  rcases hk : load_file env w k with ⟨_ | kd, wk⟩
  · rw [hk] at hwk
    simp only [hk, Except.error.injEq] at h
    subst h
    simp only at hwk
    subst hwk
    exact ⟨rfl, rfl⟩
  rw [hk] at hwk
  simp only at hwk
  simp only [hk] at h
  have hwk1 : wk.writes = w.writes := by rw [hwk]
  have hwk2 : wk.out = w.out := by rw [hwk]
  rcases h1 : load_optional env wk L.ramdisk_fn (cstr "ramdisk") with e1 | ⟨rd, w2⟩
  · simp only [h1, Except.error.injEq] at h
    subst h
    have := load_optional_error env wk _ _ _ h1
    exact ⟨this.1.trans hwk1, this.2.trans hwk2⟩
  simp only [h1] at h
  have a1 := load_optional_ok env wk w2 _ _ _ h1
  rcases h2 : load_optional env w2 L.second_fn (cstr "secondstage") with e1 | ⟨sd, w3⟩
  · simp only [h2, Except.error.injEq] at h
    subst h
    have := load_optional_error env w2 _ _ _ h2
    exact ⟨this.1.trans (a1.2.1.trans hwk1), this.2.trans (a1.1.trans hwk2)⟩
  simp only [h2] at h
  have a2 := load_optional_ok env w2 w3 _ _ _ h2
  rcases h3 : load_optional env w3 L.dt_fn (cstr "device tree image") with e1 | ⟨dd, w4⟩
  · simp only [h3, Except.error.injEq] at h
    subst h
    have := load_optional_error env w3 _ _ _ h3
    exact ⟨this.1.trans (a2.2.1.trans (a1.2.1.trans hwk1)),
      this.2.trans (a2.1.trans (a1.1.trans hwk2))⟩
  simp only [h3] at h
  have a3 := load_optional_ok env w3 w4 _ _ _ h3
  rcases h4 : load_optional env w4 L.sig_fn (cstr "signature") with e1 | ⟨gd, w5⟩
  · simp only [h4, Except.error.injEq] at h
    subst h
    have := load_optional_error env w4 _ _ _ h4
    exact ⟨this.1.trans (a3.2.1.trans (a2.2.1.trans (a1.2.1.trans hwk1))),
      this.2.trans (a3.1.trans (a2.1.trans (a1.1.trans hwk2)))⟩
  simp [h4] at h

theorem main_header_error (P : Platform) (L : Locals) (w : World) (e : Int × World)
    (h : main_header P L w = .error e) : e.2.writes = w.writes ∧ e.2.out = w.out := by
  rcases hb : L.bootimg with _ | b1
  · simp only [main_header, hb, Except.error.injEq] at h
    subst h
    exact ⟨rfl, rfl⟩
  rcases hk : L.kernel_fn with _ | k1
  · simp only [main_header, hb, hk, Except.error.injEq] at h
    subst h
    exact ⟨rfl, rfl⟩
  by_cases h1 : strlen L.board ≥ P.BOOT_NAME_SIZE
  · simp only [main_header, hb, hk, h1, if_true, Except.error.injEq] at h
    subst h
    exact ⟨rfl, rfl⟩
  by_cases h2 : strlen L.cmdline > P.BOOT_ARGS_SIZE + P.BOOT_EXTRA_ARGS_SIZE - 2
  · simp only [main_header, hb, hk, h1, h2, if_true, if_false, Except.error.injEq] at h
    subst h
    exact ⟨rfl, rfl⟩
  simp only [main_header, hb, hk, h1, h2, if_false] at h
  exact absurd h (by simp)

theorem main_prepare_error (P : Platform) (env : Env) (L : Locals) (w : World)
    (e : Int × World) (h : main_prepare P env L w = .error e) :
    e.2.writes = w.writes ∧ e.2.out = w.out := by
  unfold main_prepare at h
  rcases hh : main_header P L w with e1 | ⟨b0, k, hdr0⟩
  · simp only [hh, Except.error.injEq] at h
    subst h
    exact main_header_error P L w _ hh
  simp only [hh] at h
  rcases hl : main_load env L k hdr0 w with e1 | ⟨hdrL, pl0, w2⟩
  · simp only [hl, Except.error.injEq] at h
    subst h
    exact main_load_error env L k hdr0 w _ hl
  simp [hl] at h

theorem main_emit_failed (P : Platform) (env : Env) (L : Locals) (b : Bytes)
    (hdr : boot_img_hdr) (pl : Payloads) (w w2 : World) (ret : Int) (hw : w.writes = [])
    (hrun : main_emit P env L b hdr pl w = (ret, w2))
    (hfail : ∃ c ∈ w2.writes, c.result ≠ (c.count : Int)) :
    ret = 1 ∧ w2.out = none := by
  obtain ⟨c, hc, hne⟩ := hfail
  unfold main_emit at hrun
  by_cases hcr : env.create_ok = true
  · simp only [hcr, Bool.not_true, Bool.false_eq_true, if_false] at hrun
    rcases hm : main_writes P env L hdr pl { w with out := some [] } with wf | wn
    · simp only [hm, Prod.mk.injEq] at hrun
      obtain ⟨rfl, rfl⟩ := hrun
      exact ⟨rfl, rfl⟩
    · simp only [hm, Prod.mk.injEq] at hrun
      obtain ⟨-, rfl⟩ := hrun
      have hstart : AllFull { w with out := some [] } := by
        intro c hc
        simp [hw] at hc
      exact absurd (main_writes_full P env L hdr pl _ _ hstart hm c hc) hne
  · simp only [hcr, Bool.not_false, if_true, Prod.mk.injEq] at hrun
    obtain ⟨-, rfl⟩ := hrun
    simp [eprint, hw] at hc

/-- C5: every run of `main` has a result, and in every run, if any call of
`write` that it made (for the header, for a payload, for padding or for the
signature, whatever the size of the signature) failed or was short, that is,
returned something other than the count it was given, then `main` returned 1
and the output target is removed; so no such failure leaves the output target
in existence or lets `main` return 0. -/
theorem failed_write_unlinks (P : Platform) (env : Env) (argv : List Bytes) (ret : Int)
    (w2 : World) (hrun : main P env argv = (ret, w2))
    (hfail : ∃ c ∈ w2.writes, c.result ≠ (c.count : Int)) :
    ret = 1 ∧ w2.out = none := by
  unfold main at hrun
  rcases hp : parse_args env (argv.drop 1) Locals.init (World.start env) with e | L
  · simp only [hp] at hrun
    subst hrun
    obtain ⟨c, hc, -⟩ := hfail
    have := (parse_args_error env _ _ hp).1
    simp only at this
    rw [this] at hc
    simp at hc
  · simp only [hp] at hrun
    unfold main_body at hrun
    rcases hq : main_prepare P env L (World.start env) with e | ⟨b, hdr, pl, w1⟩
    · simp only [hq] at hrun
      subst hrun
      obtain ⟨c, hc, -⟩ := hfail
      have := (main_prepare_error P env L _ _ hq).1
      simp only [World.start] at this
      rw [this] at hc
      simp at hc
    · simp only [hq] at hrun
      obtain ⟨-, -, -, -, -, -, -, -, -, -, -, -, -, hw, -⟩ :=
        main_prepare_ok P env L _ w1 b hdr pl hq
      exact main_emit_failed P env L b hdr pl w1 w2 ret hw hrun hfail

set_option maxRecDepth 8192 in
theorem failed_write_unlinks_witness :
    ∃ w2, main examplePlatform signatureFailEnv shortSignatureArgv = (1, w2)
      ∧ (∃ c ∈ w2.writes, c.result ≠ (c.count : Int))
      ∧ (⟨272, -1⟩ : WriteCall) ∈ w2.writes
      ∧ w2.out = none := by
  have hparse : parse_args signatureFailEnv (shortSignatureArgv.drop 1) Locals.init
      (World.start signatureFailEnv) = .ok shortSignatureLocals := by decide!
  have hex : ∃ b hdr pl w1,
      main_prepare examplePlatform signatureFailEnv shortSignatureLocals
          (World.start signatureFailEnv) = .ok (b, hdr, pl, w1)
      ∧ pl.sig_data = some (List.replicate 100 9)
      ∧ alignedCounts shortSignatureLocals.pagesize examplePlatform.sizeof_hdr hdr
          = [1632, 416, 5, 2043, 0, 0, 0, 0, 0, 0] :=
    ⟨_, _, _, _, rfl, rfl, rfl⟩
  obtain ⟨b, hdr, pl, w1, hprep, hs, hcounts⟩ := hex
  have hwr : ∀ n ∈ alignedCounts shortSignatureLocals.pagesize examplePlatform.sizeof_hdr hdr,
      ∀ k, signatureFailEnv.wr k n = some n := by
    intro n hn k
    rw [hcounts] at hn
    have hne : n ≠ 272 := by
      rintro rfl
      exact absurd hn (by decide)
    show (if n = 272 then none else some n) = some n
    rw [if_neg hne]
  obtain ⟨w2, hrun, hmem⟩ := main_signature_write_fails examplePlatform signatureFailEnv
    shortSignatureArgv shortSignatureLocals b hdr pl w1 _ examplePlatform_wf hparse hprep rfl
    hwr hs (fun _ => rfl)
  have hfail : ∃ c ∈ w2.writes, c.result ≠ (c.count : Int) := ⟨_, hmem, by decide⟩
  exact ⟨w2, hrun, hfail, hmem,
    (failed_write_unlinks examplePlatform signatureFailEnv shortSignatureArgv 1 w2 hrun
      hfail).2⟩

/-! ## Claim C8: absent and empty device tree -/

/-- The bytes hashed for an empty device tree are those hashed for no device
tree followed by the four bytes of a zero `dt_size`: the two sequences differ,
and their digests differ whenever the digest function tells them apart. -/
theorem hashed_absent_vs_empty (P : Platform) (hP : P.WF) (hdr : boot_img_hdr)
    (kernel : Bytes) (ramdisk second sig : Option Bytes) (hd : hdr.dt_size = 0) :
    hashedSequence P hdr
        { kernel_data := kernel, ramdisk_data := ramdisk, second_data := second,
          dt_data := some [], sig_data := sig }
      = hashedSequence P hdr
          { kernel_data := kernel, ramdisk_data := ramdisk, second_data := second,
            dt_data := none, sig_data := sig } ++ P.u32_bytes 0
    ∧ hashedSequence P hdr
        { kernel_data := kernel, ramdisk_data := ramdisk, second_data := second,
          dt_data := some [], sig_data := sig }
      ≠ hashedSequence P hdr
          { kernel_data := kernel, ramdisk_data := ramdisk, second_data := second,
            dt_data := none, sig_data := sig } := by
  have h1 : hashedSequence P hdr
        { kernel_data := kernel, ramdisk_data := ramdisk, second_data := second,
          dt_data := some [], sig_data := sig }
      = hashedSequence P hdr
          { kernel_data := kernel, ramdisk_data := ramdisk, second_data := second,
            dt_data := none, sig_data := sig } ++ P.u32_bytes 0 := by
    simp [hashedSequence, hd]
  refine ⟨h1, ?_⟩
  intro h
  have hlen := congrArg List.length h
  rw [h1, List.length_append, hP.u32_size] at hlen
  omega

/-- When the digest is no wider than the `id` field, two runs of the hashing
statements from the same header leave different identifiers whenever the
digests of their two contexts differ. -/
theorem id_differs_of_digest_differs (P : Platform) (hP : P.WF) (hdr : boot_img_hdr)
    (pl1 pl2 : Payloads) (hsz : P.SHA_DIGEST_SIZE ≤ P.sizeof_id)
    (hne : P.SHA_hash (main_sha_ctx P hdr pl1) ≠ P.SHA_hash (main_sha_ctx P hdr pl2)) :
    (main_hash P hdr pl1).id ≠ (main_hash P hdr pl2).id := by
  have hn : (if P.SHA_DIGEST_SIZE > P.sizeof_id then P.sizeof_id else P.SHA_DIGEST_SIZE)
      = P.SHA_DIGEST_SIZE := by
    split <;> omega
  have ht : ∀ m, (P.SHA_hash m).take P.SHA_DIGEST_SIZE = P.SHA_hash m := fun m =>
    List.take_of_length_le (by rw [hP.digest_size])
  intro h
  unfold main_hash memcpy SHA_final at h
  simp only [hn, ht] at h
  have hl : (P.SHA_hash (main_sha_ctx P hdr pl1)).length
      = (P.SHA_hash (main_sha_ctx P hdr pl2)).length := by
    rw [hP.digest_size, hP.digest_size]
  exact hne (List.append_inj_left h hl)

end Mkbootimg
